import Mathlib

set_option maxRecDepth 8000

/-!
Verification of the `jholidaydict` Japanese-holiday engine.

The embedding models Python `datetime.date` values by their proleptic-Gregorian
ordinals (`date.toordinal()`, with 0001-01-01 = 1, so `weekday o = (o + 6) % 7`
gives 0 = Monday .. 6 = Sunday exactly as `date.weekday()`), and `datetime`
values by their total count of microseconds since 0001-01-01 00:00:00.
Each holiday generator of `jholidaydict.JHoliday` becomes an executable Lean
function producing the list of `(ordinal, label)` pairs it yields for a query
range `[minD, maxD]`; the Python `dict` built from the chained generators
becomes an association list with last-write-wins lookup.
-/

namespace JHolidayDict

/-- `True` for proleptic-Gregorian leap years, as Python's
`calendar`/`datetime` leap rule. -/
def isLeap (y : Nat) : Bool := y % 4 == 0 && (y % 100 != 0 || y % 400 == 0)

/-- Days before the first of month `m` in a non-leap year
(Python's `_DAYS_BEFORE_MONTH` table). -/
def daysBeforeMonthBase (m : Nat) : Nat :=
  match m with
  | 1 => 0 | 2 => 31 | 3 => 59 | 4 => 90 | 5 => 120 | 6 => 151
  | 7 => 181 | 8 => 212 | 9 => 243 | 10 => 273 | 11 => 304 | 12 => 334
  | _ => 0

/-- Days in year `y` before the first of month `m` (Python `_days_before_month`). -/
def daysBeforeMonth (y m : Nat) : Nat :=
  daysBeforeMonthBase m + (if 2 < m && isLeap y then 1 else 0)

/-- Days before January 1 of year `y` (Python `_days_before_year`). -/
def daysBeforeYear (y : Nat) : Nat :=
  365 * (y - 1) + (y - 1) / 4 - (y - 1) / 100 + (y - 1) / 400

/-- `datetime.date(y, m, d).toordinal()`. -/
def toordinal (y m d : Nat) : Nat := daysBeforeYear y + daysBeforeMonth y m + d

/-- `date.fromordinal(o).weekday()`: 0 = Monday .. 6 = Sunday. -/
def weekday (o : Nat) : Nat := (o + 6) % 7

/-- The year of the date with ordinal `o`: the year-extraction part of
Python's `_ord2ymd` (400/100/4/1-year cycle decomposition). -/
def yearOf (o : Nat) : Nat :=
  let n := o - 1
  let n400 := n / 146097
  let r400 := n % 146097
  let n100 := r400 / 36524
  let r100 := r400 % 36524
  let n4 := r100 / 1461
  let r4 := r100 % 1461
  let n1 := r4 / 365
  let y := 400 * n400 + 100 * n100 + 4 * n4 + n1 + 1
  if n1 == 4 || n100 == 4 then y - 1 else y

/-! The statute cutover ordinals of `jholidaydict.py` (`DATE_00` .. `DATE_09`). -/

def DATE_00 : Nat := toordinal 1948 7 23
def DATE_01 : Nat := toordinal 1966 6 25
def DATE_KE : Nat := toordinal 1966 12 9
def DATE_02 : Nat := toordinal 1973 4 12
def DATE_03 : Nat := toordinal 1985 12 27
def DATE_04 : Nat := toordinal 1989 2 17
def DATE_05 : Nat := toordinal 1996 1 1
def DATE_HM : Nat := toordinal 2000 1 1
def DATE_06 : Nat := toordinal 2003 1 1
def DATE_07 : Nat := toordinal 2007 1 1
def DATE_08 : Nat := toordinal 2016 1 1
def DATE_TT : Nat := toordinal 2019 5 1
def DATE_09 : Nat := toordinal 2020 1 1

/-! ## The yearly date streams and the sorted-stream clipping

`JHoliday._iter_dates(month, day)` yields `date(1948, month, day)`,
`date(1949, month, day)`, ... for ever; `_iter_nth_monday(month, n)` yields,
for each of those years, the first of the month advanced to the `n`-th Monday.
`_sorted_dates_filter` clips such a chronologically increasing stream with
`dropwhile (min_date > ·)` and `takewhile (max_date ≥ ·)`.  Here the streams
are materialised up to `yearCount maxD` elements, which is enough for every
element beyond the prefix to exceed `maxD` (proved in `dateStream_escapes`),
so the drop/take clipping of the infinite stream and of the prefix agree. -/

/-- Element `k` of the `_iter_dates month day` stream. -/
def dateStream (m d : Nat) (k : Nat) : Nat := toordinal (1948 + k) m d

/-- `date(y, m, 1) + 7*(n-1) days + ((7 - weekday) % 7) days`
(the loop body of `_iter_nth_monday`). -/
def nthMondayOfYear (y m n : Nat) : Nat :=
  toordinal y m 1 + 7 * (n - 1) + (7 - weekday (toordinal y m 1)) % 7

/-- Element `k` of the `_iter_nth_monday month n` stream. -/
def mondayStream (m n : Nat) (k : Nat) : Nat := nthMondayOfYear (1948 + k) m n

/-- Enough stream elements that all later ones exceed `maxD`. -/
def yearCount (maxD : Nat) : Nat := maxD / 365 + 2 - 1947

/-- `itertools.dropwhile(functools.partial(operator.gt, min_date), it)`
when a lower bound is given. -/
def sortedDatesFilterLo (lo : Option Nat) (l : List Nat) : List Nat :=
  match lo with
  | some a => l.dropWhile (fun o => decide (o < a))
  | none => l

/-- `JHoliday._sorted_dates_filter`: drop the leading elements below `lo`,
then take elements while they are at most `hi`. -/
def sortedDatesFilter (lo hi : Option Nat) (l : List Nat) : List Nat :=
  match hi with
  | some b => (sortedDatesFilterLo lo l).takeWhile (fun o => decide (o ≤ b))
  | none => sortedDatesFilterLo lo l

/-- `JHoliday.iter_dates(month, day)`: the fixed month/day stream clipped to
the query range `[minD, maxD]`. -/
def iter_dates (minD maxD m d : Nat) : List Nat :=
  sortedDatesFilter (some minD) (some maxD)
    ((List.range (yearCount maxD)).map (dateStream m d))

/-- `JHoliday.iter_nth_monday(month, n)` clipped to the query range. -/
def iter_nth_monday (minD maxD m n : Nat) : List Nat :=
  sortedDatesFilter (some minD) (some maxD)
    ((List.range (yearCount maxD)).map (mondayStream m n))

/-- Attach a holiday label to each date of a list. -/
def withName (h : String) (l : List Nat) : List (Nat × String) :=
  l.map (fun o => (o, h))

/-- `o ≤ b` when an upper era bound `b` is present; trivial otherwise. -/
def leOpt (o : Nat) : Option Nat → Prop
  | some b => o ≤ b
  | none => True

instance (o : Nat) (hi : Option Nat) : Decidable (leOpt o hi) := by
  cases hi <;> simp [leOpt] <;> infer_instance

/-- One fixed-month/day era window: the range-clipped yearly stream, clipped
again to the window `[lo, hi]`, labelled. -/
def fixedGen (nm : String) (m d lo : Nat) (hi : Option Nat) (minD maxD : Nat) :
    List (Nat × String) :=
  withName nm (sortedDatesFilter (some lo) hi (iter_dates minD maxD m d))

/-- One nth-Monday era window, labelled. -/
def mondayGen (nm : String) (m n lo : Nat) (hi : Option Nat) (minD maxD : Nat) :
    List (Nat × String) :=
  withName nm (sortedDatesFilter (some lo) hi (iter_nth_monday minD maxD m n))

/-- A fixed-month/day window additionally skipping year 2020
(`... for date in it if date.year != 2020`). -/
def fixedGenSkip (nm : String) (m d lo : Nat) (minD maxD : Nat) : List (Nat × String) :=
  withName nm ((sortedDatesFilter (some lo) none (iter_dates minD maxD m d)).filter
    (fun o => yearOf o != 2020))

/-- An nth-Monday window additionally skipping year 2020. -/
def mondayGenSkip (nm : String) (m n lo : Nat) (minD maxD : Nat) : List (Nat × String) :=
  withName nm ((sortedDatesFilter (some lo) none (iter_nth_monday minD maxD m n)).filter
    (fun o => yearOf o != 2020))

/-- A literal one-off date, yielded exactly when it lies in the query range. -/
def override (nm : String) (d minD maxD : Nat) : List (Nat × String) :=
  if minD ≤ d ∧ d ≤ maxD then [(d, nm)] else []

/-! ## The holiday generators

One definition per generator method of `JHoliday`, in source order.  Each takes
the query range `[minD, maxD]` and returns the list of `(ordinal, label)`
pairs the Python generator yields, in yield order. -/

/-- `JHoliday.ganjitsu`: 01-01 from `DATE_00` on. -/
def ganjitsu (minD maxD : Nat) : List (Nat × String) :=
  fixedGen ("元日") 1 1 DATE_00 none minD maxD

/-- `JHoliday.seijinnohi`: 01-15 during `[DATE_00, DATE_HM]`, then the second
Monday of January from `DATE_HM` on. -/
def seijinnohi (minD maxD : Nat) : List (Nat × String) :=
  fixedGen ("成人の日") 1 15 DATE_00 (some DATE_HM) minD maxD
    ++ mondayGen ("成人の日") 1 2 DATE_HM none minD maxD

/-- `JHoliday.kenkokukinennohi`: 02-11 from `DATE_KE` on. -/
def kenkokukinennohi (minD maxD : Nat) : List (Nat × String) :=
  fixedGen ("建国記念の日") 2 11 DATE_KE none minD maxD

/-! ### Equinox generators

`shunbunnohi`/`shubunnohi` step a seeded `datetime` anchor by
`timedelta(days=365.242189)`.  CPython's `timedelta` stores that float as
365 days, 20925 seconds, 129600 microseconds (the fractional day converted to
microseconds and rounded half-even), so one step is exactly
`31556925129600` microseconds; `datetime ± timedelta` is exact integer
arithmetic on that representation.  We model a `datetime` as its microsecond
count since 0001-01-01 00:00:00, so `.date()` is division by a day's
microseconds.  The unbounded Python `while` loops become fuel-indexed loops;
`backFuel` and `fwdFuel` exceed the number of iterations each loop performs
before its condition exits (proved in the termination theorem). -/

def usPerDay : Nat := 86400000000

/-- `timedelta(days=365.242189)` in microseconds. -/
def deltaUs : Nat := 31556925129600

/-- `dt.date().toordinal()` for a `datetime` modelled in microseconds. -/
def dtDate (us : Nat) : Nat := us / usPerDay + 1

/-- `datetime(y, m, d, hh, mm)` in microseconds. -/
def dtOf (y m d hh mm : Nat) : Nat :=
  (toordinal y m d - 1) * usPerDay + (hh * 3600 + mm * 60) * 1000000

/-- `datetime(2018, 3, 21, 1, 15) - timedelta(minutes=8)`. -/
def shunbunAnchor : Nat := dtOf 2018 3 21 1 15 - 8 * 60 * 1000000

/-- The first instant of the vernal forward sweep: the anchor restored by
`timedelta(minutes=8+4)` and advanced one step. -/
def shunbunFwdStart : Nat := shunbunAnchor + (8 + 4) * 60 * 1000000 + deltaUs

/-- `datetime(2018, 9, 23, 10, 54) - timedelta(minutes=2)`. -/
def shubunAnchor : Nat := dtOf 2018 9 23 10 54 - 2 * 60 * 1000000

def backFuel : Nat := 4000

def fwdFuel (maxD : Nat) : Nat := maxD / 300 + 10

/-- The backward sweep of `shunbunnohi`: `while dt.date() >= min_date:` yield
the date when it is `< max_date`, then step back. -/
def shunbunBackLoop (minD maxD : Nat) : Nat → Nat → List (Nat × String)
  | 0, _ => []
  | fuel + 1, dt =>
    if minD ≤ dtDate dt then
      (if dtDate dt < maxD then [(dtDate dt, "春分の日")] else [])
        ++ shunbunBackLoop minD maxD fuel (dt - deltaUs)
    else []

/-- The forward sweep of `shunbunnohi`: `while dt.date() < max_date:` yield
the date when it is `>= min_date`, then step forward. -/
def shunbunFwdLoop (minD maxD : Nat) : Nat → Nat → List (Nat × String)
  | 0, _ => []
  | fuel + 1, dt =>
    if dtDate dt < maxD then
      (if minD ≤ dtDate dt then [(dtDate dt, "春分の日")] else [])
        ++ shunbunFwdLoop minD maxD fuel (dt + deltaUs)
    else []

/-- `JHoliday.shunbunnohi` (Vernal Equinox Day); `min_date` is clamped to
`max(DATE_00, self.min_date)` as in the source. -/
def shunbunnohi (minD maxD : Nat) : List (Nat × String) :=
  shunbunBackLoop (max DATE_00 minD) maxD backFuel shunbunAnchor
    ++ shunbunFwdLoop (max DATE_00 minD) maxD (fwdFuel maxD) shunbunFwdStart

/-- `JHoliday.showanohi`: 04-29 from `DATE_07` on. -/
def showanohi (minD maxD : Nat) : List (Nat × String) :=
  fixedGen ("昭和の日") 4 29 DATE_07 none minD maxD

/-- `JHoliday.kenpokinenbi`: 05-03 from `DATE_00` on. -/
def kenpokinenbi (minD maxD : Nat) : List (Nat × String) :=
  fixedGen ("憲法記念日") 5 3 DATE_00 none minD maxD

/-- `JHoliday.midorinohi`: 04-29 during `[DATE_04, DATE_07]`, then 05-04 from
`DATE_07` on. -/
def midorinohi (minD maxD : Nat) : List (Nat × String) :=
  fixedGen ("みどりの日") 4 29 DATE_04 (some DATE_07) minD maxD
    ++ fixedGen ("みどりの日") 5 4 DATE_07 none minD maxD

/-- `JHoliday.kodomonohi`: 05-05 from `DATE_00` on. -/
def kodomonohi (minD maxD : Nat) : List (Nat × String) :=
  fixedGen ("こどもの日") 5 5 DATE_00 none minD maxD

/-- `JHoliday.uminohi`: 07-20 during `[DATE_05, DATE_06]`, then the third
Monday of July from `DATE_06` on skipping year 2020, plus the literal
2020-07-23 when it lies in the query range. -/
def uminohi (minD maxD : Nat) : List (Nat × String) :=
  fixedGen ("海の日") 7 20 DATE_05 (some DATE_06) minD maxD
    ++ mondayGenSkip ("海の日") 7 3 DATE_06 minD maxD
    ++ override ("海の日") (toordinal 2020 7 23) minD maxD

/-- `JHoliday.yamanohi`: 08-11 from `DATE_08` on skipping year 2020, plus the
literal 2020-08-10 when it lies in the query range. -/
def yamanohi (minD maxD : Nat) : List (Nat × String) :=
  fixedGenSkip ("山の日") 8 11 DATE_08 minD maxD
    ++ override ("山の日") (toordinal 2020 8 10) minD maxD

/-- `JHoliday.keironohi`: 09-15 during `[DATE_01, DATE_06]`, then the third
Monday of September from `DATE_06` on. -/
def keironohi (minD maxD : Nat) : List (Nat × String) :=
  fixedGen ("敬老の日") 9 15 DATE_01 (some DATE_06) minD maxD
    ++ mondayGen ("敬老の日") 9 3 DATE_06 none minD maxD

/-- The backward sweep of `shubunnohi`: unlike the vernal one, it yields
unconditionally while `dt.date() >= min_date`. -/
def shubunBackLoop (minD : Nat) : Nat → Nat → List (Nat × String)
  | 0, _ => []
  | fuel + 1, dt =>
    if minD ≤ dtDate dt then
      (dtDate dt, "秋分の日") :: shubunBackLoop minD fuel (dt - deltaUs)
    else []

/-- The forward sweep of `shubunnohi`: yields unconditionally while
`dt.date() < max_date`. -/
def shubunFwdLoop (maxD : Nat) : Nat → Nat → List (Nat × String)
  | 0, _ => []
  | fuel + 1, dt =>
    if dtDate dt < maxD then
      (dtDate dt, "秋分の日") :: shubunFwdLoop maxD fuel (dt + deltaUs)
    else []

/-- `JHoliday.shubunnohi` (Autumnal Equinox Day): the backward sweep runs only
when the anchor's date is `< max_date`, and the forward sweep only when the
anchor advanced one step is `>= min_date`, exactly as the source's guards. -/
def shubunnohi (minD maxD : Nat) : List (Nat × String) :=
  (if dtDate shubunAnchor < maxD then
      shubunBackLoop (max DATE_00 minD) backFuel shubunAnchor else [])
    ++ (if max DATE_00 minD ≤ dtDate (shubunAnchor + deltaUs) then
          shubunFwdLoop maxD (fwdFuel maxD) (shubunAnchor + deltaUs) else [])

/-- `JHoliday.supotsunohi`: the second Monday of October from `DATE_09` on
skipping year 2020, plus the literal 2020-07-24 when in range. -/
def supotsunohi (minD maxD : Nat) : List (Nat × String) :=
  mondayGenSkip ("スポーツの日") 10 2 DATE_09 minD maxD
    ++ override ("スポーツの日") (toordinal 2020 7 24) minD maxD

/-- `JHoliday.taikunohi`: 10-10 during `[DATE_01, DATE_HM]`, then the second
Monday of October during `[DATE_HM, DATE_09]`. -/
def taikunohi (minD maxD : Nat) : List (Nat × String) :=
  fixedGen ("体育の日") 10 10 DATE_01 (some DATE_HM) minD maxD
    ++ mondayGen ("体育の日") 10 2 DATE_HM (some DATE_09) minD maxD

/-- `JHoliday.bunkanohi`: 11-03 from `DATE_00` on. -/
def bunkanohi (minD maxD : Nat) : List (Nat × String) :=
  fixedGen ("文化の日") 11 3 DATE_00 none minD maxD

/-- `JHoliday.kinrokanshanohi`: 11-23 from `DATE_00` on. -/
def kinrokanshanohi (minD maxD : Nat) : List (Nat × String) :=
  fixedGen ("勤労感謝の日") 11 23 DATE_00 none minD maxD

/-- `JHoliday.tennotanjobi`: 04-29 during `[DATE_00, DATE_04]`, 12-23 during
`[DATE_04, DATE_TT]`, 02-23 from `DATE_TT` on. -/
def tennotanjobi (minD maxD : Nat) : List (Nat × String) :=
  fixedGen ("天皇誕生日") 4 29 DATE_00 (some DATE_04) minD maxD
    ++ fixedGen ("天皇誕生日") 12 23 DATE_04 (some DATE_TT) minD maxD
    ++ fixedGen ("天皇誕生日") 2 23 DATE_TT none minD maxD

/-- The fixed table of `JHoliday._special`. -/
def specialRaw : List (Nat × String) :=
  [(toordinal 1959 4 10, "皇太子明仁親王の結婚の儀"),
   (toordinal 1989 2 24, "昭和天皇の大喪の礼"),
   (toordinal 1990 11 12, "即位礼正殿の儀"),
   (toordinal 1993 6 9, "皇太子徳仁親王の結婚の儀"),
   (toordinal 2019 5 1, "即位の日"),
   (toordinal 2019 10 22, "即位礼正殿の儀")]

/-- `JHoliday.special`: the table filtered by range membership of the date
(`_holidays_filter`). -/
def special (minD maxD : Nat) : List (Nat × String) :=
  specialRaw.filter (fun p => decide (minD ≤ p.1) && decide (p.1 ≤ maxD))

/-! ## The derived-holiday pass (`kokuminnokyujitsu`) -/

/-- `JHoliday.iter_all_dates`: every ordinal of `[minD, maxD]` in order. -/
def iter_all_dates (minD maxD : Nat) : List Nat :=
  (List.range (maxD + 1 - minD)).map (fun k => minD + k)

/-- The third-era skip loop `while one in holidays: one += 1`, fuel-indexed. -/
def skipHolidays (hol : Nat → Bool) : Nat → Nat → Nat
  | 0, o => o
  | fuel + 1, o => if hol o then skipHolidays hol fuel (o + 1) else o

/-- The sandwiched-holiday branch shared by eras 2 and 3: when `dat + 2` is a
base holiday and `dat + 1` is neither a base holiday nor a Sunday and is
within the upper bound, label it 国民の休日. -/
def sandwich (hol : Nat → Bool) (maxD dat : Nat) : List (Nat × String) :=
  if hol (dat + 2) then
    if !hol (dat + 1) && weekday (dat + 1) != 6 && decide (dat + 1 ≤ maxD) then
      [(dat + 1, "国民の休日")]
    else []
  else []

/-- The per-date body of the `kokuminnokyujitsu` loop, split over the eras
`[·, DATE_02)`, `[DATE_02, DATE_03)`, `[DATE_03, DATE_07)`, `[DATE_07, ·)`.
In the last two eras a fired Sunday-substitute branch `continue`s past the
sandwich check; otherwise control falls through to it. -/
def kokuminStep (hol : Nat → Bool) (maxD dat : Nat) : List (Nat × String) :=
  if dat < DATE_02 then []
  else if dat < DATE_03 then
    if hol dat then
      if weekday dat == 6 then
        if !hol (dat + 1) && decide (dat + 1 ≤ maxD) then [(dat + 1, "振替休日")] else []
      else []
    else []
  else if dat < DATE_07 then
    if hol dat then
      if weekday dat == 6 && !hol (dat + 1) && decide (dat + 1 ≤ maxD) then
        [(dat + 1, "振替休日")]
      else sandwich hol maxD dat
    else []
  else
    if hol dat then
      if weekday dat == 6 && decide (skipHolidays hol (maxD + 2 - dat) (dat + 1) ≤ maxD) then
        [(skipHolidays hol (maxD + 2 - dat) (dat + 1), "振替休日")]
      else sandwich hol maxD dat
    else []

/-- `JHoliday.kokuminnokyujitsu(holidays)`: the derived pairs, in yield order,
computed against the base-holiday membership test `hol`. -/
def kokuminnokyujitsu (minD maxD : Nat) (hol : Nat → Bool) : List (Nat × String) :=
  (iter_all_dates minD maxD).flatMap (kokuminStep hol maxD)

/-! ## The resolved map -/

/-- Lookup in an association list built like a Python `dict` from a pair
sequence: the LAST binding of a key wins. -/
def dlookup : List (Nat × String) → Nat → Option String
  | [], _ => none
  | p :: rest, k =>
    match dlookup rest k with
    | some v => some v
    | none => if p.1 == k then some p.2 else none

/-- The chained base generators of `JHoliday._holidays`, in source order. -/
def baseList (minD maxD : Nat) : List (Nat × String) :=
  ganjitsu minD maxD ++ seijinnohi minD maxD ++ kenkokukinennohi minD maxD
    ++ shunbunnohi minD maxD ++ showanohi minD maxD ++ kenpokinenbi minD maxD
    ++ midorinohi minD maxD ++ kodomonohi minD maxD ++ uminohi minD maxD
    ++ yamanohi minD maxD ++ keironohi minD maxD ++ shubunnohi minD maxD
    ++ supotsunohi minD maxD ++ taikunohi minD maxD ++ bunkanohi minD maxD
    ++ kinrokanshanohi minD maxD ++ tennotanjobi minD maxD ++ special minD maxD

/-- Membership in the base dict (`date_ in holidays` inside the derived pass,
which receives a snapshot copy of the base dict). -/
def holBase (minD maxD : Nat) (o : Nat) : Bool :=
  (dlookup (baseList minD maxD) o).isSome

/-- The pair sequence whose dict is the fully resolved map:
`holidays.update(kokuminnokyujitsu(dict(holidays)))`. -/
def finalList (minD maxD : Nat) : List (Nat × String) :=
  baseList minD maxD ++ kokuminnokyujitsu minD maxD (holBase minD maxD)

/-- `JHoliday(min_date, max_date)`'s resolved mapping, as date-indexed lookup. -/
def holidays (minD maxD : Nat) (k : Nat) : Option String :=
  dlookup (finalList minD maxD) k

/-! ## Lookup lemmas -/

theorem dlookup_append (l1 l2 : List (Nat × String)) (k : Nat) :
    dlookup (l1 ++ l2) k =
      match dlookup l2 k with
      | some v => some v
      | none => dlookup l1 k := by
  induction l1 with
  | nil =>
    simp only [List.nil_append]
    cases h : dlookup l2 k <;> simp [h, dlookup]
  | cons p rest ih =>
    have h : dlookup ((p :: rest) ++ l2) k =
        match dlookup (rest ++ l2) k with
        | some v => some v
        | none => if p.1 == k then some p.2 else none := rfl
    rw [h, ih]
    cases dlookup l2 k <;> simp [dlookup]

theorem dlookup_eq_some_mem {l : List (Nat × String)} {k : Nat} {v : String}
    (h : dlookup l k = some v) : (k, v) ∈ l := by
  induction l with
  | nil => simp [dlookup] at h
  | cons p rest ih =>
    simp only [dlookup] at h
    rcases hr : dlookup rest k with _ | w
    · rw [hr] at h
      simp only at h
      split at h
      · rename_i hk
        have hk1 : p.1 = k := by simpa using hk
        have : p = (k, v) := by
          cases p; cases h; simp_all
        simp [this]
      · exact absurd h (by simp)
    · rw [hr] at h
      simp only [Option.some.injEq] at h
      subst h
      exact List.mem_cons_of_mem _ (ih hr)

theorem dlookup_eq_none_iff {l : List (Nat × String)} {k : Nat} :
    dlookup l k = none ↔ ∀ p ∈ l, p.1 ≠ k := by
  induction l with
  | nil => simp [dlookup]
  | cons p rest ih =>
    simp only [dlookup]
    rcases hr : dlookup rest k with _ | w
    · simp only []
      constructor
      · intro h q hq
        split at h
        · exact absurd h (by simp)
        · rename_i hk
          rcases List.mem_cons.mp hq with rfl | hq2
          · simpa using hk
          · exact (ih.mp hr) q hq2
      · intro h
        have : ¬(p.1 == k) = true := by
          have := h p (by simp)
          simpa using this
        simp [this]
    · constructor
      · intro h; exact absurd h (by simp)
      · intro h
        exfalso
        exact h _ (List.mem_cons_of_mem _ (dlookup_eq_some_mem hr)) rfl

theorem dlookup_isSome_of_mem {l : List (Nat × String)} {k : Nat} {v : String}
    (h : (k, v) ∈ l) : (dlookup l k).isSome = true := by
  rcases hl : dlookup l k with _ | w
  · exact absurd rfl ((dlookup_eq_none_iff.mp hl) _ h)
  · rfl

/-! ## Clipping a sorted list -/

theorem le_of_mem_dropWhile_lt {l : List Nat} (hs : l.Pairwise (· < ·)) {a x : Nat}
    (hx : x ∈ l.dropWhile (fun o => decide (o < a))) : a ≤ x := by
  induction l with
  | nil => simp [List.dropWhile] at hx
  | cons h t ih =>
    rw [List.dropWhile_cons] at hx
    by_cases hha : h < a
    · rw [if_pos (by simpa using hha)] at hx
      exact ih (List.pairwise_cons.mp hs).2 hx
    · rw [if_neg (by simpa using hha)] at hx
      rcases List.mem_cons.mp hx with rfl | hx2
      · omega
      · have := (List.pairwise_cons.mp hs).1 x hx2
        omega

theorem mem_dropWhile_lt_of_mem {l : List Nat} {a x : Nat}
    (hx : x ∈ l) (hax : a ≤ x) : x ∈ l.dropWhile (fun o => decide (o < a)) := by
  induction l with
  | nil => simp at hx
  | cons h t ih =>
    rw [List.dropWhile_cons]
    by_cases hha : h < a
    · rw [if_pos (by simpa using hha)]
      rcases List.mem_cons.mp hx with rfl | hx2
      · omega
      · exact ih hx2
    · rw [if_neg (by simpa using hha)]
      exact hx

theorem mem_takeWhile_le_of_mem {l : List Nat} (hs : l.Pairwise (· < ·)) {b x : Nat}
    (hx : x ∈ l) (hxb : x ≤ b) : x ∈ l.takeWhile (fun o => decide (o ≤ b)) := by
  induction l with
  | nil => simp at hx
  | cons h t ih =>
    rw [List.takeWhile_cons]
    rcases List.mem_cons.mp hx with rfl | hx2
    · rw [if_pos (by simpa using hxb)]
      exact List.mem_cons_self _ _
    · have hh : h < x := (List.pairwise_cons.mp hs).1 x hx2
      rw [if_pos (by simp; omega)]
      exact List.mem_cons_of_mem _ (ih (List.pairwise_cons.mp hs).2 hx2)

theorem sortedDatesFilter_sublist (lo hi : Option Nat) (l : List Nat) :
    (sortedDatesFilter lo hi l).Sublist l := by
  unfold sortedDatesFilter sortedDatesFilterLo
  cases hi <;> cases lo
  · exact List.Sublist.refl l
  · exact List.dropWhile_sublist _
  · exact List.takeWhile_sublist _
  · exact (List.takeWhile_sublist _).trans (List.dropWhile_sublist _)

theorem mem_sortedDatesFilter {l : List Nat} (hs : l.Pairwise (· < ·))
    {a : Nat} {hi : Option Nat} {x : Nat} :
    x ∈ sortedDatesFilter (some a) hi l ↔ x ∈ l ∧ a ≤ x ∧ leOpt x hi := by
  cases hi with
  | none =>
    show x ∈ l.dropWhile _ ↔ _
    constructor
    · intro h
      exact ⟨(List.dropWhile_sublist _).mem h, le_of_mem_dropWhile_lt hs h, trivial⟩
    · intro ⟨h1, h2, _⟩
      exact mem_dropWhile_lt_of_mem h1 h2
  | some b =>
    show x ∈ (l.dropWhile _).takeWhile _ ↔ _
    constructor
    · intro h
      have hxb : x ≤ b := by simpa using List.mem_takeWhile_imp h
      have hxd : x ∈ l.dropWhile (fun o => decide (o < a)) := (List.takeWhile_sublist _).mem h
      exact ⟨(List.dropWhile_sublist _).mem hxd, le_of_mem_dropWhile_lt hs hxd, hxb⟩
    · intro ⟨h1, h2, h3⟩
      have hxd : x ∈ l.dropWhile (fun o => decide (o < a)) := mem_dropWhile_lt_of_mem h1 h2
      have hsd : (l.dropWhile (fun o => decide (o < a))).Pairwise (· < ·) :=
        List.Pairwise.sublist (List.dropWhile_sublist _) hs
      exact mem_takeWhile_le_of_mem hsd hxd h3

/-! ## Stream monotonicity and escape bounds -/

theorem daysBeforeMonth_bounds (y m : Nat) :
    daysBeforeMonthBase m ≤ daysBeforeMonth y m ∧
      daysBeforeMonth y m ≤ daysBeforeMonthBase m + 1 := by
  unfold daysBeforeMonth
  split <;> omega

theorem daysBeforeYear_step (y : Nat) (hy : 1 ≤ y) :
    daysBeforeYear y + 365 ≤ daysBeforeYear (y + 1) ∧
      daysBeforeYear (y + 1) ≤ daysBeforeYear y + 366 := by
  unfold daysBeforeYear
  omega

theorem toordinal_step (y m d : Nat) (hy : 1 ≤ y) :
    toordinal y m d + 364 ≤ toordinal (y + 1) m d ∧
      toordinal (y + 1) m d ≤ toordinal y m d + 367 := by
  unfold toordinal
  have h := daysBeforeYear_step y hy
  have h1 := daysBeforeMonth_bounds y m
  have h2 := daysBeforeMonth_bounds (y + 1) m
  omega

theorem toordinal_lb (y m d : Nat) : 365 * (y - 1) ≤ toordinal y m d := by
  unfold toordinal daysBeforeYear
  omega

theorem dateStream_step (m d k : Nat) : dateStream m d k + 364 ≤ dateStream m d (k + 1) := by
  unfold dateStream
  have h : 1948 + (k + 1) = (1948 + k) + 1 := by omega
  rw [h]
  exact (toordinal_step (1948 + k) m d (by omega)).1

theorem dateStream_escapes (m d maxD k : Nat) (hk : yearCount maxD ≤ k) :
    maxD < dateStream m d k := by
  have hlb := toordinal_lb (1948 + k) m d
  unfold dateStream
  unfold yearCount at hk
  omega

theorem rawDates_pairwise (m d N : Nat) :
    ((List.range N).map (dateStream m d)).Pairwise (· < ·) := by
  refine List.pairwise_map.mpr ?_
  refine (List.pairwise_lt_range N).imp ?_
  intro a b hab
  have hm : StrictMono (dateStream m d) :=
    strictMono_nat_of_lt_succ (fun k => by have := dateStream_step m d k; omega)
  exact hm hab

theorem weekday_lt (o : Nat) : weekday o < 7 := Nat.mod_lt _ (by omega)

theorem nthMondayOfYear_bounds (y m n : Nat) :
    toordinal y m 1 + 7 * (n - 1) ≤ nthMondayOfYear y m n ∧
      nthMondayOfYear y m n ≤ toordinal y m 1 + 7 * (n - 1) + 6 := by
  unfold nthMondayOfYear weekday
  omega

theorem mondayStream_step (m n k : Nat) :
    mondayStream m n k + 358 ≤ mondayStream m n (k + 1) := by
  unfold mondayStream
  have h : 1948 + (k + 1) = (1948 + k) + 1 := by omega
  rw [h]
  have h1 := nthMondayOfYear_bounds (1948 + k) m n
  have h2 := nthMondayOfYear_bounds ((1948 + k) + 1) m n
  have h3 := toordinal_step (1948 + k) m 1 (by omega)
  omega

theorem mondayStream_escapes (m n maxD k : Nat) (hk : yearCount maxD ≤ k) :
    maxD < mondayStream m n k := by
  have hlb := toordinal_lb (1948 + k) m 1
  have h1 := nthMondayOfYear_bounds (1948 + k) m n
  unfold mondayStream
  unfold yearCount at hk
  omega

theorem rawMondays_pairwise (m n N : Nat) :
    ((List.range N).map (mondayStream m n)).Pairwise (· < ·) := by
  refine List.pairwise_map.mpr ?_
  refine (List.pairwise_lt_range N).imp ?_
  intro a b hab
  have hm : StrictMono (mondayStream m n) :=
    strictMono_nat_of_lt_succ (fun k => by have := mondayStream_step m n k; omega)
  exact hm hab

/-! ## Membership in the clipped streams and era windows -/

theorem mem_iter_dates {minD maxD m d x : Nat} :
    x ∈ iter_dates minD maxD m d ↔
      (∃ k, dateStream m d k = x) ∧ minD ≤ x ∧ x ≤ maxD := by
  unfold iter_dates
  rw [mem_sortedDatesFilter (rawDates_pairwise m d _)]
  show x ∈ _ ∧ _ ∧ x ≤ maxD ↔ _
  simp only [List.mem_map, List.mem_range]
  constructor
  · rintro ⟨⟨k, _, hk⟩, h1, h2⟩
    exact ⟨⟨k, hk⟩, h1, h2⟩
  · rintro ⟨⟨k, hk⟩, h1, h2⟩
    refine ⟨⟨k, ?_, hk⟩, h1, h2⟩
    by_contra hN
    have := dateStream_escapes m d maxD k (by omega)
    omega

theorem mem_iter_nth_monday {minD maxD m n x : Nat} :
    x ∈ iter_nth_monday minD maxD m n ↔
      (∃ k, mondayStream m n k = x) ∧ minD ≤ x ∧ x ≤ maxD := by
  unfold iter_nth_monday
  rw [mem_sortedDatesFilter (rawMondays_pairwise m n _)]
  show x ∈ _ ∧ _ ∧ x ≤ maxD ↔ _
  simp only [List.mem_map, List.mem_range]
  constructor
  · rintro ⟨⟨k, _, hk⟩, h1, h2⟩
    exact ⟨⟨k, hk⟩, h1, h2⟩
  · rintro ⟨⟨k, hk⟩, h1, h2⟩
    refine ⟨⟨k, ?_, hk⟩, h1, h2⟩
    by_contra hN
    have := mondayStream_escapes m n maxD k (by omega)
    omega

theorem iter_dates_pairwise (minD maxD m d : Nat) :
    (iter_dates minD maxD m d).Pairwise (· < ·) :=
  List.Pairwise.sublist (sortedDatesFilter_sublist _ _ _) (rawDates_pairwise m d _)

theorem iter_nth_monday_pairwise (minD maxD m n : Nat) :
    (iter_nth_monday minD maxD m n).Pairwise (· < ·) :=
  List.Pairwise.sublist (sortedDatesFilter_sublist _ _ _) (rawMondays_pairwise m n _)

theorem mem_fixedGen {nm : String} {m d lo : Nat} {hi : Option Nat} {minD maxD : Nat}
    {p : Nat × String} :
    p ∈ fixedGen nm m d lo hi minD maxD ↔
      (∃ k, dateStream m d k = p.1) ∧ minD ≤ p.1 ∧ p.1 ≤ maxD ∧ lo ≤ p.1 ∧
        leOpt p.1 hi ∧ p.2 = nm := by
  unfold fixedGen withName
  rw [List.mem_map]
  constructor
  · rintro ⟨o, ho, rfl⟩
    have := (mem_sortedDatesFilter (iter_dates_pairwise minD maxD m d)).mp ho
    have h2 := mem_iter_dates.mp this.1
    exact ⟨h2.1, h2.2.1, h2.2.2, this.2.1, this.2.2, rfl⟩
  · rintro ⟨h1, h2, h3, h4, h5, h6⟩
    refine ⟨p.1, ?_, ?_⟩
    · exact (mem_sortedDatesFilter (iter_dates_pairwise minD maxD m d)).mpr
        ⟨mem_iter_dates.mpr ⟨h1, h2, h3⟩, h4, h5⟩
    · cases p; simp_all

theorem mem_mondayGen {nm : String} {m n lo : Nat} {hi : Option Nat} {minD maxD : Nat}
    {p : Nat × String} :
    p ∈ mondayGen nm m n lo hi minD maxD ↔
      (∃ k, mondayStream m n k = p.1) ∧ minD ≤ p.1 ∧ p.1 ≤ maxD ∧ lo ≤ p.1 ∧
        leOpt p.1 hi ∧ p.2 = nm := by
  unfold mondayGen withName
  rw [List.mem_map]
  constructor
  · rintro ⟨o, ho, rfl⟩
    have := (mem_sortedDatesFilter (iter_nth_monday_pairwise minD maxD m n)).mp ho
    have h2 := mem_iter_nth_monday.mp this.1
    exact ⟨h2.1, h2.2.1, h2.2.2, this.2.1, this.2.2, rfl⟩
  · rintro ⟨h1, h2, h3, h4, h5, h6⟩
    refine ⟨p.1, ?_, ?_⟩
    · exact (mem_sortedDatesFilter (iter_nth_monday_pairwise minD maxD m n)).mpr
        ⟨mem_iter_nth_monday.mpr ⟨h1, h2, h3⟩, h4, h5⟩
    · cases p; simp_all

theorem mem_fixedGenSkip {nm : String} {m d lo : Nat} {minD maxD : Nat}
    {p : Nat × String} :
    p ∈ fixedGenSkip nm m d lo minD maxD ↔
      (∃ k, dateStream m d k = p.1) ∧ minD ≤ p.1 ∧ p.1 ≤ maxD ∧ lo ≤ p.1 ∧
        yearOf p.1 ≠ 2020 ∧ p.2 = nm := by
  unfold fixedGenSkip withName
  rw [List.mem_map]
  constructor
  · rintro ⟨o, ho, rfl⟩
    have hf := List.mem_filter.mp ho
    have := (mem_sortedDatesFilter (iter_dates_pairwise minD maxD m d)).mp hf.1
    have h2 := mem_iter_dates.mp this.1
    refine ⟨h2.1, h2.2.1, h2.2.2, this.2.1, ?_, rfl⟩
    simpa using hf.2
  · rintro ⟨h1, h2, h3, h4, h5, h6⟩
    refine ⟨p.1, List.mem_filter.mpr ⟨?_, by simpa using h5⟩, ?_⟩
    · exact (mem_sortedDatesFilter (iter_dates_pairwise minD maxD m d)).mpr
        ⟨mem_iter_dates.mpr ⟨h1, h2, h3⟩, h4, trivial⟩
    · cases p; simp_all

theorem mem_mondayGenSkip {nm : String} {m n lo : Nat} {minD maxD : Nat}
    {p : Nat × String} :
    p ∈ mondayGenSkip nm m n lo minD maxD ↔
      (∃ k, mondayStream m n k = p.1) ∧ minD ≤ p.1 ∧ p.1 ≤ maxD ∧ lo ≤ p.1 ∧
        yearOf p.1 ≠ 2020 ∧ p.2 = nm := by
  unfold mondayGenSkip withName
  rw [List.mem_map]
  constructor
  · rintro ⟨o, ho, rfl⟩
    have hf := List.mem_filter.mp ho
    have := (mem_sortedDatesFilter (iter_nth_monday_pairwise minD maxD m n)).mp hf.1
    have h2 := mem_iter_nth_monday.mp this.1
    refine ⟨h2.1, h2.2.1, h2.2.2, this.2.1, ?_, rfl⟩
    simpa using hf.2
  · rintro ⟨h1, h2, h3, h4, h5, h6⟩
    refine ⟨p.1, List.mem_filter.mpr ⟨?_, by simpa using h5⟩, ?_⟩
    · exact (mem_sortedDatesFilter (iter_nth_monday_pairwise minD maxD m n)).mpr
        ⟨mem_iter_nth_monday.mpr ⟨h1, h2, h3⟩, h4, trivial⟩
    · cases p; simp_all

theorem mem_override {nm : String} {d minD maxD : Nat} {p : Nat × String} :
    p ∈ override nm d minD maxD ↔ p = (d, nm) ∧ minD ≤ d ∧ d ≤ maxD := by
  unfold override
  split
  · rename_i h
    simp only [List.mem_singleton]
    exact ⟨fun hp => ⟨hp, h.1, h.2⟩, fun hp => hp.1⟩
  · rename_i h
    simp only [List.not_mem_nil, false_iff]
    intro hp
    exact h ⟨hp.2.1, hp.2.2⟩

/-! ## Members of the equinox sweeps -/

theorem dtDate_sub_le (dt x : Nat) : dtDate (dt - x) ≤ dtDate dt := by
  unfold dtDate
  exact Nat.add_le_add_right (Nat.div_le_div_right (by omega)) 1

theorem dtDate_le_add (dt x : Nat) : dtDate dt ≤ dtDate (dt + x) := by
  unfold dtDate
  exact Nat.add_le_add_right (Nat.div_le_div_right (by omega)) 1

theorem dtDate_add_delta (dt : Nat) : dtDate dt + 365 ≤ dtDate (dt + deltaUs) := by
  unfold dtDate deltaUs usPerDay
  omega

theorem dtDate_sub_delta (dt : Nat) (h : deltaUs ≤ dt) :
    dtDate (dt - deltaUs) + 365 ≤ dtDate dt := by
  unfold dtDate deltaUs usPerDay at *
  omega

theorem mem_shunbunBackLoop {minD maxD : Nat} {p : Nat × String} :
    ∀ {fuel dt : Nat}, p ∈ shunbunBackLoop minD maxD fuel dt →
      minD ≤ p.1 ∧ p.1 < maxD ∧ p.1 ≤ dtDate dt ∧ p.2 = "春分の日" := by
  intro fuel
  induction fuel with
  | zero => intro dt h; simp [shunbunBackLoop] at h
  | succ f ih =>
    intro dt h
    unfold shunbunBackLoop at h
    split at h
    · rcases List.mem_append.mp h with h1 | h2
      · split at h1
        · rcases List.mem_singleton.mp h1 with rfl
          exact ⟨by assumption, by assumption, le_refl _, rfl⟩
        · simp at h1
      · have := ih h2
        exact ⟨this.1, this.2.1, this.2.2.1.trans (dtDate_sub_le dt deltaUs), this.2.2.2⟩
    · simp at h

theorem mem_shunbunFwdLoop {minD maxD : Nat} {p : Nat × String} :
    ∀ {fuel dt : Nat}, p ∈ shunbunFwdLoop minD maxD fuel dt →
      minD ≤ p.1 ∧ p.1 < maxD ∧ dtDate dt ≤ p.1 ∧ p.2 = "春分の日" := by
  intro fuel
  induction fuel with
  | zero => intro dt h; simp [shunbunFwdLoop] at h
  | succ f ih =>
    intro dt h
    unfold shunbunFwdLoop at h
    split at h
    · rcases List.mem_append.mp h with h1 | h2
      · split at h1
        · rcases List.mem_singleton.mp h1 with rfl
          exact ⟨by assumption, by assumption, le_refl _, rfl⟩
        · simp at h1
      · have := ih h2
        exact ⟨this.1, this.2.1, (dtDate_le_add dt deltaUs).trans this.2.2.1, this.2.2.2⟩
    · simp at h

theorem mem_shunbunnohi {minD maxD : Nat} {p : Nat × String}
    (h : p ∈ shunbunnohi minD maxD) :
    max DATE_00 minD ≤ p.1 ∧ p.1 < maxD ∧ p.2 = "春分の日" := by
  rcases List.mem_append.mp h with h1 | h2
  · have := mem_shunbunBackLoop h1
    exact ⟨this.1, this.2.1, this.2.2.2⟩
  · have := mem_shunbunFwdLoop h2
    exact ⟨this.1, this.2.1, this.2.2.2⟩

theorem mem_shubunBackLoop {minD : Nat} {p : Nat × String} :
    ∀ {fuel dt : Nat}, p ∈ shubunBackLoop minD fuel dt →
      minD ≤ p.1 ∧ p.1 ≤ dtDate dt ∧ p.2 = "秋分の日" := by
  intro fuel
  induction fuel with
  | zero => intro dt h; simp [shubunBackLoop] at h
  | succ f ih =>
    intro dt h
    unfold shubunBackLoop at h
    split at h
    · rcases List.mem_cons.mp h with rfl | h2
      · exact ⟨by assumption, le_refl _, rfl⟩
      · have := ih h2
        exact ⟨this.1, this.2.1.trans (dtDate_sub_le dt deltaUs), this.2.2⟩
    · simp at h

theorem mem_shubunFwdLoop {maxD : Nat} {p : Nat × String} :
    ∀ {fuel dt : Nat}, p ∈ shubunFwdLoop maxD fuel dt →
      dtDate dt ≤ p.1 ∧ p.1 < maxD ∧ p.2 = "秋分の日" := by
  intro fuel
  induction fuel with
  | zero => intro dt h; simp [shubunFwdLoop] at h
  | succ f ih =>
    intro dt h
    unfold shubunFwdLoop at h
    split at h
    · rcases List.mem_cons.mp h with rfl | h2
      · exact ⟨le_refl _, by assumption, rfl⟩
      · have := ih h2
        exact ⟨(dtDate_le_add dt deltaUs).trans this.1, this.2.1, this.2.2⟩
    · simp at h

theorem mem_shubunnohi {minD maxD : Nat} {p : Nat × String}
    (h : p ∈ shubunnohi minD maxD) :
    max DATE_00 minD ≤ p.1 ∧ p.1 < maxD ∧ p.2 = "秋分の日" := by
  unfold shubunnohi at h
  rcases List.mem_append.mp h with h1 | h2
  · split at h1
    · rename_i hguard
      have := mem_shubunBackLoop h1
      exact ⟨this.1, lt_of_le_of_lt this.2.1 hguard, this.2.2⟩
    · simp at h1
  · split at h2
    · rename_i hguard
      have := mem_shubunFwdLoop h2
      exact ⟨hguard.trans this.1, this.2.1, this.2.2⟩
    · simp at h2

/-! ## Members of the derived pass -/

theorem mem_iter_all_dates {minD maxD x : Nat} :
    x ∈ iter_all_dates minD maxD ↔ minD ≤ x ∧ x ≤ maxD := by
  unfold iter_all_dates
  simp only [List.mem_map, List.mem_range]
  constructor
  · rintro ⟨k, hk, rfl⟩; omega
  · rintro ⟨h1, h2⟩; exact ⟨x - minD, by omega, by omega⟩

theorem skipHolidays_ge (hol : Nat → Bool) :
    ∀ (fuel o : Nat), o ≤ skipHolidays hol fuel o := by
  intro fuel
  induction fuel with
  | zero => intro o; simp [skipHolidays]
  | succ f ih =>
    intro o
    unfold skipHolidays
    split
    · exact le_trans (by omega) (ih (o + 1))
    · exact le_refl o

theorem mem_sandwich {hol : Nat → Bool} {maxD dat : Nat} {p : Nat × String}
    (h : p ∈ sandwich hol maxD dat) :
    p = (dat + 1, "国民の休日") ∧ hol (dat + 1) = false ∧
      weekday (dat + 1) ≠ 6 ∧ dat + 1 ≤ maxD ∧ hol (dat + 2) = true := by
  unfold sandwich at h
  split at h
  · split at h
    · rename_i h2 h1
      rcases List.mem_singleton.mp h with rfl
      simp only [Bool.and_eq_true, Bool.not_eq_true', bne_iff_ne, ne_eq,
        decide_eq_true_eq] at h1
      exact ⟨rfl, h1.1.1, by simpa using h1.1.2, h1.2, h2⟩
    · simp at h
  · simp at h

theorem mem_kokuminStep {hol : Nat → Bool} {maxD dat : Nat} {p : Nat × String}
    (h : p ∈ kokuminStep hol maxD dat) :
    dat < p.1 ∧ p.1 ≤ maxD ∧ (p.2 = "振替休日" ∨ p.2 = "国民の休日") := by
  unfold kokuminStep at h
  split at h
  · simp at h
  · split at h
    · split at h
      · split at h
        · split at h
          · rename_i hc
            rcases List.mem_singleton.mp h with rfl
            simp only [Bool.and_eq_true, decide_eq_true_eq] at hc
            exact ⟨by omega, hc.2, Or.inl rfl⟩
          · simp at h
        · simp at h
      · simp at h
    · split at h
      · split at h
        · split at h
          · rename_i hc
            rcases List.mem_singleton.mp h with rfl
            simp only [Bool.and_eq_true, decide_eq_true_eq] at hc
            exact ⟨by omega, hc.2, Or.inl rfl⟩
          · have := mem_sandwich h
            rcases this.1 with rfl
            exact ⟨by omega, this.2.2.2.1, Or.inr rfl⟩
        · simp at h
      · split at h
        · split at h
          · rename_i hc
            rcases List.mem_singleton.mp h with rfl
            simp only [Bool.and_eq_true, decide_eq_true_eq] at hc
            have := skipHolidays_ge hol (maxD + 2 - dat) (dat + 1)
            exact ⟨by omega, hc.2, Or.inl rfl⟩
          · have := mem_sandwich h
            rcases this.1 with rfl
            exact ⟨by omega, this.2.2.2.1, Or.inr rfl⟩
        · simp at h

theorem mem_kokuminnokyujitsu {minD maxD : Nat} {hol : Nat → Bool} {p : Nat × String}
    (h : p ∈ kokuminnokyujitsu minD maxD hol) :
    minD < p.1 ∧ p.1 ≤ maxD ∧ (p.2 = "振替休日" ∨ p.2 = "国民の休日") := by
  unfold kokuminnokyujitsu at h
  rcases List.mem_flatMap.mp h with ⟨dat, hdat, hp⟩
  have hd := mem_iter_all_dates.mp hdat
  have hs := mem_kokuminStep hp
  exact ⟨by omega, hs.2.1, hs.2.2⟩

/-! ## Every key of the resolved map lies in the query range -/

theorem mem_special {minD maxD : Nat} {p : Nat × String}
    (h : p ∈ special minD maxD) : p ∈ specialRaw ∧ minD ≤ p.1 ∧ p.1 ≤ maxD := by
  have := List.mem_filter.mp h
  refine ⟨this.1, ?_, ?_⟩ <;> [skip; skip] <;>
    · have h2 := this.2
      simp only [Bool.and_eq_true, decide_eq_true_eq] at h2
      omega

theorem range_of_fixedGen {nm : String} {m d lo : Nat} {hi : Option Nat}
    {minD maxD : Nat} {p : Nat × String} (h : p ∈ fixedGen nm m d lo hi minD maxD) :
    minD ≤ p.1 ∧ p.1 ≤ maxD := by
  have := mem_fixedGen.mp h
  exact ⟨this.2.1, this.2.2.1⟩

theorem range_of_mondayGen {nm : String} {m n lo : Nat} {hi : Option Nat}
    {minD maxD : Nat} {p : Nat × String} (h : p ∈ mondayGen nm m n lo hi minD maxD) :
    minD ≤ p.1 ∧ p.1 ≤ maxD := by
  have := mem_mondayGen.mp h
  exact ⟨this.2.1, this.2.2.1⟩

theorem range_of_override {nm : String} {d minD maxD : Nat} {p : Nat × String}
    (h : p ∈ override nm d minD maxD) : minD ≤ p.1 ∧ p.1 ≤ maxD := by
  have := mem_override.mp h
  rcases this.1 with rfl
  exact ⟨this.2.1, this.2.2⟩

theorem range_of_fixedGenSkip {nm : String} {m d lo minD maxD : Nat} {p : Nat × String}
    (h : p ∈ fixedGenSkip nm m d lo minD maxD) : minD ≤ p.1 ∧ p.1 ≤ maxD := by
  have := mem_fixedGenSkip.mp h
  exact ⟨this.2.1, this.2.2.1⟩

theorem range_of_mondayGenSkip {nm : String} {m n lo minD maxD : Nat} {p : Nat × String}
    (h : p ∈ mondayGenSkip nm m n lo minD maxD) : minD ≤ p.1 ∧ p.1 ≤ maxD := by
  have := mem_mondayGenSkip.mp h
  exact ⟨this.2.1, this.2.2.1⟩

theorem ganjitsu_range {minD maxD : Nat} {p : Nat × String}
    (h : p ∈ ganjitsu minD maxD) : minD ≤ p.1 ∧ p.1 ≤ maxD :=
  range_of_fixedGen h

theorem seijinnohi_range {minD maxD : Nat} {p : Nat × String}
    (h : p ∈ seijinnohi minD maxD) : minD ≤ p.1 ∧ p.1 ≤ maxD := by
  rcases List.mem_append.mp h with h1 | h1
  · exact range_of_fixedGen h1
  · exact range_of_mondayGen h1

theorem kenkokukinennohi_range {minD maxD : Nat} {p : Nat × String}
    (h : p ∈ kenkokukinennohi minD maxD) : minD ≤ p.1 ∧ p.1 ≤ maxD :=
  range_of_fixedGen h

theorem shunbunnohi_range {minD maxD : Nat} {p : Nat × String}
    (h : p ∈ shunbunnohi minD maxD) : minD ≤ p.1 ∧ p.1 ≤ maxD := by
  have := mem_shunbunnohi h
  exact ⟨le_trans (le_max_right _ _) this.1, le_of_lt this.2.1⟩

theorem showanohi_range {minD maxD : Nat} {p : Nat × String}
    (h : p ∈ showanohi minD maxD) : minD ≤ p.1 ∧ p.1 ≤ maxD :=
  range_of_fixedGen h

theorem kenpokinenbi_range {minD maxD : Nat} {p : Nat × String}
    (h : p ∈ kenpokinenbi minD maxD) : minD ≤ p.1 ∧ p.1 ≤ maxD :=
  range_of_fixedGen h

theorem midorinohi_range {minD maxD : Nat} {p : Nat × String}
    (h : p ∈ midorinohi minD maxD) : minD ≤ p.1 ∧ p.1 ≤ maxD := by
  rcases List.mem_append.mp h with h1 | h1 <;> exact range_of_fixedGen h1

theorem kodomonohi_range {minD maxD : Nat} {p : Nat × String}
    (h : p ∈ kodomonohi minD maxD) : minD ≤ p.1 ∧ p.1 ≤ maxD :=
  range_of_fixedGen h

theorem uminohi_range {minD maxD : Nat} {p : Nat × String}
    (h : p ∈ uminohi minD maxD) : minD ≤ p.1 ∧ p.1 ≤ maxD := by
  rcases List.mem_append.mp h with h1 | h1
  · rcases List.mem_append.mp h1 with h2 | h2
    · exact range_of_fixedGen h2
    · exact range_of_mondayGenSkip h2
  · exact range_of_override h1

theorem yamanohi_range {minD maxD : Nat} {p : Nat × String}
    (h : p ∈ yamanohi minD maxD) : minD ≤ p.1 ∧ p.1 ≤ maxD := by
  rcases List.mem_append.mp h with h1 | h1
  · exact range_of_fixedGenSkip h1
  · exact range_of_override h1

theorem keironohi_range {minD maxD : Nat} {p : Nat × String}
    (h : p ∈ keironohi minD maxD) : minD ≤ p.1 ∧ p.1 ≤ maxD := by
  rcases List.mem_append.mp h with h1 | h1
  · exact range_of_fixedGen h1
  · exact range_of_mondayGen h1

theorem shubunnohi_range {minD maxD : Nat} {p : Nat × String}
    (h : p ∈ shubunnohi minD maxD) : minD ≤ p.1 ∧ p.1 ≤ maxD := by
  have := mem_shubunnohi h
  exact ⟨le_trans (le_max_right _ _) this.1, le_of_lt this.2.1⟩

theorem supotsunohi_range {minD maxD : Nat} {p : Nat × String}
    (h : p ∈ supotsunohi minD maxD) : minD ≤ p.1 ∧ p.1 ≤ maxD := by
  rcases List.mem_append.mp h with h1 | h1
  · exact range_of_mondayGenSkip h1
  · exact range_of_override h1

theorem taikunohi_range {minD maxD : Nat} {p : Nat × String}
    (h : p ∈ taikunohi minD maxD) : minD ≤ p.1 ∧ p.1 ≤ maxD := by
  rcases List.mem_append.mp h with h1 | h1
  · exact range_of_fixedGen h1
  · exact range_of_mondayGen h1

theorem bunkanohi_range {minD maxD : Nat} {p : Nat × String}
    (h : p ∈ bunkanohi minD maxD) : minD ≤ p.1 ∧ p.1 ≤ maxD :=
  range_of_fixedGen h

theorem kinrokanshanohi_range {minD maxD : Nat} {p : Nat × String}
    (h : p ∈ kinrokanshanohi minD maxD) : minD ≤ p.1 ∧ p.1 ≤ maxD :=
  range_of_fixedGen h

theorem tennotanjobi_range {minD maxD : Nat} {p : Nat × String}
    (h : p ∈ tennotanjobi minD maxD) : minD ≤ p.1 ∧ p.1 ≤ maxD := by
  rcases List.mem_append.mp h with h1 | h1
  · rcases List.mem_append.mp h1 with h2 | h2 <;> exact range_of_fixedGen h2
  · exact range_of_fixedGen h1

theorem special_range {minD maxD : Nat} {p : Nat × String}
    (h : p ∈ special minD maxD) : minD ≤ p.1 ∧ p.1 ≤ maxD :=
  (mem_special h).2

theorem mem_baseList {minD maxD : Nat} {p : Nat × String}
    (h : p ∈ baseList minD maxD) : minD ≤ p.1 ∧ p.1 ≤ maxD := by
  unfold baseList at h
  repeat rw [List.mem_append] at h
  rcases h with ((((((((((((((((h1|h2)|h3)|h4)|h5)|h6)|h7)|h8)|h9)|h10)|h11)|h12)|h13)|h14)|h15)|h16)|h17)|h18
  · exact ganjitsu_range h1
  · exact seijinnohi_range h2
  · exact kenkokukinennohi_range h3
  · exact shunbunnohi_range h4
  · exact showanohi_range h5
  · exact kenpokinenbi_range h6
  · exact midorinohi_range h7
  · exact kodomonohi_range h8
  · exact uminohi_range h9
  · exact yamanohi_range h10
  · exact keironohi_range h11
  · exact shubunnohi_range h12
  · exact supotsunohi_range h13
  · exact taikunohi_range h14
  · exact bunkanohi_range h15
  · exact kinrokanshanohi_range h16
  · exact tennotanjobi_range h17
  · exact special_range h18

theorem mem_finalList {minD maxD : Nat} {p : Nat × String}
    (h : p ∈ finalList minD maxD) : minD ≤ p.1 ∧ p.1 ≤ maxD := by
  unfold finalList at h
  rcases List.mem_append.mp h with h1 | h2
  · exact mem_baseList h1
  · have := mem_kokuminnokyujitsu h2
    exact ⟨le_of_lt this.1, this.2.1⟩

/-! ## Emptiness for reversed ranges -/

theorem baseList_empty {minD maxD : Nat} (h : maxD < minD) : baseList minD maxD = [] := by
  rw [List.eq_nil_iff_forall_not_mem]
  intro p hp
  have := mem_baseList hp
  omega

theorem kokuminnokyujitsu_empty {minD maxD : Nat} (hol : Nat → Bool) (h : maxD < minD) :
    kokuminnokyujitsu minD maxD hol = [] := by
  rw [List.eq_nil_iff_forall_not_mem]
  intro p hp
  have := mem_kokuminnokyujitsu hp
  omega

theorem finalList_empty {minD maxD : Nat} (h : maxD < minD) : finalList minD maxD = [] := by
  unfold finalList
  rw [baseList_empty h, kokuminnokyujitsu_empty _ h]
  rfl

/-! ## Claim theorems -/

/-- C7: for every query range `[minD, maxD]`, every key of the resolved map
(base holidays, one-off events and derived 振替休日/国民の休日 entries alike)
lies within the inclusive range, and the map assigns exactly one label to each
key: a second lookup of the same key returns the same label. -/
theorem claim_C7_keys_in_range (minD maxD k : Nat) (v : String)
    (h : holidays minD maxD k = some v) :
    minD ≤ k ∧ k ≤ maxD ∧ ∀ w, holidays minD maxD k = some w → w = v := by
  unfold holidays at h
  have hm := mem_finalList (dlookup_eq_some_mem h)
  refine ⟨hm.1, hm.2, fun w hw => ?_⟩
  unfold holidays at hw
  rw [h] at hw
  exact (Option.some.inj hw).symm

/-- The base map of the 2018 instance, as a literal list. -/
def base2018 : List (Nat × String) :=
  [(toordinal 2018 1 1, "元日"), (toordinal 2018 1 8, "成人の日"),
   (toordinal 2018 2 11, "建国記念の日"), (toordinal 2018 3 21, "春分の日"),
   (toordinal 2018 4 29, "昭和の日"), (toordinal 2018 5 3, "憲法記念日"),
   (toordinal 2018 5 4, "みどりの日"), (toordinal 2018 5 5, "こどもの日"),
   (toordinal 2018 7 16, "海の日"), (toordinal 2018 8 11, "山の日"),
   (toordinal 2018 9 17, "敬老の日"), (toordinal 2018 9 23, "秋分の日"),
   (toordinal 2018 10 8, "体育の日"), (toordinal 2018 11 3, "文化の日"),
   (toordinal 2018 11 23, "勤労感謝の日"), (toordinal 2018 12 23, "天皇誕生日")]

theorem baseList_2018 :
    baseList (toordinal 2018 1 1) (toordinal 2018 12 31) = base2018 := by decide

/-- The derived pairs of the 2018 instance. -/
def kokumin2018 : List (Nat × String) :=
  [(toordinal 2018 2 12, "振替休日"), (toordinal 2018 4 30, "振替休日"),
   (toordinal 2018 9 24, "振替休日"), (toordinal 2018 12 24, "振替休日")]

theorem holBase_2018 :
    holBase (toordinal 2018 1 1) (toordinal 2018 12 31) =
      fun o => (dlookup base2018 o).isSome := by
  funext o
  unfold holBase
  rw [baseList_2018]

theorem kokuminList_2018 :
    kokuminnokyujitsu (toordinal 2018 1 1) (toordinal 2018 12 31)
      (holBase (toordinal 2018 1 1) (toordinal 2018 12 31)) = kokumin2018 := by
  rw [holBase_2018]
  decide

theorem finalList_2018 :
    finalList (toordinal 2018 1 1) (toordinal 2018 12 31) = base2018 ++ kokumin2018 := by
  unfold finalList
  rw [baseList_2018, kokuminList_2018]

theorem holidays_2018 (k : Nat) :
    holidays (toordinal 2018 1 1) (toordinal 2018 12 31) k =
      dlookup (base2018 ++ kokumin2018) k := by
  unfold holidays
  rw [finalList_2018]

/-- Witness for C7 at the 2018 instance and New Year's Day. -/
theorem claim_C7_keys_in_range_witness :
    toordinal 2018 1 1 ≤ toordinal 2018 1 1 ∧ toordinal 2018 1 1 ≤ toordinal 2018 12 31 ∧
      ∀ w, holidays (toordinal 2018 1 1) (toordinal 2018 12 31) (toordinal 2018 1 1) = some w →
        w = "元日" :=
  claim_C7_keys_in_range (toordinal 2018 1 1) (toordinal 2018 12 31) (toordinal 2018 1 1)
    "元日" (by rw [holidays_2018]; decide)

/-- C9: for every pair of bounds with `maxD < minD` the construction succeeds
and yields the empty map: the pair list is empty, lookup finds nothing at any
date, and the length is 0. -/
theorem claim_C9_reversed_range_empty (minD maxD : Nat) (h : maxD < minD) :
    finalList minD maxD = [] ∧ (∀ k, holidays minD maxD k = none) ∧
      (finalList minD maxD).length = 0 := by
  have he := finalList_empty h
  refine ⟨he, fun k => ?_, by rw [he]; rfl⟩
  unfold holidays
  rw [he]
  rfl

/-- Witness for C9 with the reversed range `[2018-01-08, 2018-01-01]`. -/
theorem claim_C9_reversed_range_empty_witness :
    toordinal 2018 1 1 < toordinal 2018 1 8 ∧
      finalList (toordinal 2018 1 8) (toordinal 2018 1 1) = [] ∧
      (∀ k, holidays (toordinal 2018 1 8) (toordinal 2018 1 1) k = none) ∧
      (finalList (toordinal 2018 1 8) (toordinal 2018 1 1)).length = 0 :=
  ⟨by decide, claim_C9_reversed_range_empty (toordinal 2018 1 8) (toordinal 2018 1 1) (by decide)⟩

/-- C5: for every month `m`, every `n ≥ 1` and every year `y ≥ 1948`, the
nth-Monday stream element for year `y` is exactly `F + 7*(n-1)` where `F` is
the earliest ordinal `≥ (y, m, 1)` whose weekday is Monday; in particular
`(m=1, n=2, y=2018)` gives 2018-01-08 and `(m=10, n=2, y=2018)` gives
2018-10-08. -/
theorem claim_C5_nth_monday (m n y : Nat) (_hn : 1 ≤ n) (hy : 1948 ≤ y) :
    (∃ F, toordinal y m 1 ≤ F ∧ weekday F = 0 ∧
      (∀ o, toordinal y m 1 ≤ o → weekday o = 0 → F ≤ o) ∧
      mondayStream m n (y - 1948) = F + 7 * (n - 1)) ∧
    mondayStream 1 2 (2018 - 1948) = toordinal 2018 1 8 ∧
    mondayStream 10 2 (2018 - 1948) = toordinal 2018 10 8 := by
  refine ⟨⟨toordinal y m 1 + (7 - weekday (toordinal y m 1)) % 7, ?_, ?_, ?_, ?_⟩,
    by decide, by decide⟩
  · omega
  · unfold weekday
    omega
  · intro o h1 h2
    unfold weekday at h2 ⊢
    omega
  · unfold mondayStream nthMondayOfYear
    have hyy : 1948 + (y - 1948) = y := by omega
    rw [hyy]
    omega

/-- Witness for C5 at `m = 1`, `n = 2`, `y = 2018`. -/
theorem claim_C5_nth_monday_witness :
    (1 ≤ 2 ∧ 1948 ≤ 2018) ∧
      ((∃ F, toordinal 2018 1 1 ≤ F ∧ weekday F = 0 ∧
        (∀ o, toordinal 2018 1 1 ≤ o → weekday o = 0 → F ≤ o) ∧
        mondayStream 1 2 (2018 - 1948) = F + 7 * (2 - 1)) ∧
      mondayStream 1 2 (2018 - 1948) = toordinal 2018 1 8 ∧
      mondayStream 10 2 (2018 - 1948) = toordinal 2018 10 8) :=
  ⟨⟨by decide, by decide⟩, claim_C5_nth_monday 1 2 2018 (by decide) (by decide)⟩

/-! ## The skip loop of the third era, and derived keys versus the base map -/

theorem skipHolidays_exit {hol : Nat → Bool} {B : Nat}
    (hB : ∀ o, hol o = true → o ≤ B) :
    ∀ fuel start, B + 2 - start ≤ fuel →
      hol (skipHolidays hol fuel start) = false ∧
      (∀ x, start ≤ x → x < skipHolidays hol fuel start → hol x = true) := by
  intro fuel
  induction fuel with
  | zero =>
    intro start hf
    unfold skipHolidays
    constructor
    · cases hhol : hol start
      · rfl
      · have := hB start hhol
        omega
    · intro x hx1 hx2
      omega
  | succ f ih =>
    intro start hf
    unfold skipHolidays
    cases hhol : hol start with
    | false =>
      rw [if_neg (by simp [hhol])]
      exact ⟨hhol, fun x hx1 hx2 => by omega⟩
    | true =>
      rw [if_pos (by simp [hhol])]
      have hsb := hB start hhol
      have hrec := ih (start + 1) (by omega)
      refine ⟨hrec.1, fun x hx1 hx2 => ?_⟩
      rcases Nat.eq_or_lt_of_le hx1 with rfl | hlt
      · exact hhol
      · exact hrec.2 x (by omega) hx2

theorem holBase_le_maxD {minD maxD o : Nat} (h : holBase minD maxD o = true) : o ≤ maxD := by
  unfold holBase at h
  rcases hl : dlookup (baseList minD maxD) o with _ | v
  · rw [hl] at h
    simp at h
  · exact (mem_baseList (dlookup_eq_some_mem hl)).2

theorem kokuminStep_not_hol {minD maxD dat : Nat} {p : Nat × String}
    (h : p ∈ kokuminStep (holBase minD maxD) maxD dat) :
    holBase minD maxD p.1 = false := by
  have hB : ∀ o, holBase minD maxD o = true → o ≤ maxD := fun o ho => holBase_le_maxD ho
  unfold kokuminStep at h
  split at h
  · simp at h
  · split at h
    · split at h
      · split at h
        · split at h
          · rename_i hc
            rcases List.mem_singleton.mp h with rfl
            simp only [Bool.and_eq_true, Bool.not_eq_true'] at hc
            exact hc.1
          · simp at h
        · simp at h
      · simp at h
    · split at h
      · split at h
        · split at h
          · rename_i hc
            rcases List.mem_singleton.mp h with rfl
            simp only [Bool.and_eq_true, Bool.not_eq_true'] at hc
            exact hc.1.2
          · have hs := mem_sandwich h
            rcases hs.1 with rfl
            exact hs.2.1
        · simp at h
      · split at h
        · split at h
          · rename_i hc
            rcases List.mem_singleton.mp h with rfl
            exact (skipHolidays_exit hB (maxD + 2 - dat) (dat + 1) (by omega)).1
          · have hs := mem_sandwich h
            rcases hs.1 with rfl
            exact hs.2.1
        · simp at h

theorem kokumin_keys_not_base {minD maxD : Nat} {p : Nat × String}
    (h : p ∈ kokuminnokyujitsu minD maxD (holBase minD maxD)) :
    dlookup (baseList minD maxD) p.1 = none := by
  rcases List.mem_flatMap.mp h with ⟨dat, _, hp⟩
  have hnb := kokuminStep_not_hol hp
  unfold holBase at hnb
  rcases hl : dlookup (baseList minD maxD) p.1 with _ | v
  · rfl
  · rw [hl] at hnb
    simp at hnb

/-- C4: the derived pass consults the base snapshot only, every derived key is
absent from the base map, and merging the derived pairs changes or removes no
base entry: each base binding reappears unchanged in the final map. -/
theorem claim_C4_snapshot_preserves_base (minD maxD : Nat) :
    (∀ p ∈ kokuminnokyujitsu minD maxD (holBase minD maxD),
        dlookup (baseList minD maxD) p.1 = none) ∧
      (∀ k v, dlookup (baseList minD maxD) k = some v →
        holidays minD maxD k = some v) := by
  refine ⟨fun p hp => kokumin_keys_not_base hp, fun k v hv => ?_⟩
  unfold holidays finalList
  rw [dlookup_append]
  rcases hk : dlookup (kokuminnokyujitsu minD maxD (holBase minD maxD)) k with _ | w
  · exact hv
  · have hnone := kokumin_keys_not_base (dlookup_eq_some_mem hk)
    rw [hnone] at hv
    cases hv

/-- Witness for C4 at the 2018 instance: the substitute key 2018-02-12 is not
a base key, and the base binding for 2018-01-01 survives in the final map. -/
theorem claim_C4_snapshot_preserves_base_witness :
    dlookup (baseList (toordinal 2018 1 1) (toordinal 2018 12 31)) (toordinal 2018 2 12) = none ∧
      holidays (toordinal 2018 1 1) (toordinal 2018 12 31) (toordinal 2018 1 1) = some ("元日") :=
  ⟨(claim_C4_snapshot_preserves_base (toordinal 2018 1 1) (toordinal 2018 12 31)).1
      (toordinal 2018 2 12, "振替休日") (by rw [kokuminList_2018]; decide),
   (claim_C4_snapshot_preserves_base (toordinal 2018 1 1) (toordinal 2018 12 31)).2
      (toordinal 2018 1 1) "元日" (by rw [baseList_2018]; decide)⟩

/-- C2: from the third cutover on, a base holiday on a Sunday makes the pass
label the first non-base-holiday date strictly after it 振替休日, provided
that date is within the upper bound; in particular the 2018 instance labels
02-12, 04-30, 09-24 and 12-24 as 振替休日. -/
theorem claim_C2_era3_substitute (minD maxD d e : Nat)
    (hd1 : minD ≤ d) (hd2 : d ≤ maxD) (h07 : DATE_07 ≤ d)
    (hhol : holBase minD maxD d = true) (hsun : weekday d = 6)
    (he : e = skipHolidays (holBase minD maxD) (maxD + 2 - d) (d + 1))
    (hemax : e ≤ maxD) :
    ((e, "振替休日") ∈ kokuminnokyujitsu minD maxD (holBase minD maxD) ∧
      d < e ∧ holBase minD maxD e = false ∧
      (∀ x, d < x → x < e → holBase minD maxD x = true)) ∧
    (holidays (toordinal 2018 1 1) (toordinal 2018 12 31) (toordinal 2018 2 12) = some ("振替休日") ∧
      holidays (toordinal 2018 1 1) (toordinal 2018 12 31) (toordinal 2018 4 30) = some ("振替休日") ∧
      holidays (toordinal 2018 1 1) (toordinal 2018 12 31) (toordinal 2018 9 24) = some ("振替休日") ∧
      holidays (toordinal 2018 1 1) (toordinal 2018 12 31) (toordinal 2018 12 24) = some ("振替休日")) := by
  have hB : ∀ o, holBase minD maxD o = true → o ≤ maxD := fun o ho => holBase_le_maxD ho
  have hexit := skipHolidays_exit hB (maxD + 2 - d) (d + 1) (by omega)
  have hge := skipHolidays_ge (holBase minD maxD) (maxD + 2 - d) (d + 1)
  refine ⟨⟨?_, by omega, by rw [he]; exact hexit.1, ?_⟩,
    by rw [holidays_2018]; decide, by rw [holidays_2018]; decide,
    by rw [holidays_2018]; decide, by rw [holidays_2018]; decide⟩
  · unfold kokuminnokyujitsu
    refine List.mem_flatMap.mpr ⟨d, mem_iter_all_dates.mpr ⟨hd1, hd2⟩, ?_⟩
    unfold kokuminStep
    rw [if_neg (Nat.not_lt.mpr (le_trans (by decide : DATE_02 ≤ DATE_07) h07))]
    rw [if_neg (Nat.not_lt.mpr (le_trans (by decide : DATE_03 ≤ DATE_07) h07))]
    rw [if_neg (Nat.not_lt.mpr h07)]
    rw [if_pos hhol]
    rw [if_pos (show (weekday d == 6 &&
        decide (skipHolidays (holBase minD maxD) (maxD + 2 - d) (d + 1) ≤ maxD)) = true by
      rw [Bool.and_eq_true]
      exact ⟨by simpa using hsun, decide_eq_true (he ▸ hemax)⟩)]
    rw [he]
    exact List.mem_singleton.mpr rfl
  · intro x hx1 hx2
    exact hexit.2 x (by omega) (by omega)

/-- Witness for C2 at the 2018 instance: 2018-02-11 (Sunday, 建国記念の日)
produces the substitute on 2018-02-12. -/
theorem claim_C2_era3_substitute_witness :
    (toordinal 2018 2 12, "振替休日") ∈
      kokuminnokyujitsu (toordinal 2018 1 1) (toordinal 2018 12 31)
        (holBase (toordinal 2018 1 1) (toordinal 2018 12 31)) :=
  (claim_C2_era3_substitute (toordinal 2018 1 1) (toordinal 2018 12 31)
    (toordinal 2018 2 11) (toordinal 2018 2 12) (by decide) (by decide) (by decide)
    (by rw [holBase_2018]; decide) (by decide)
    (by rw [holBase_2018]; decide) (by decide)).1.1

/-- C3: from the second cutover on, when a base holiday's Sunday-substitute
branch does not fire, the date two days later is a base holiday and the date
in between is neither a base holiday nor a Sunday and is within the upper
bound, the pass labels the in-between date 国民の休日; the rule reads the
same in the era from 2007-01-01 on. -/
theorem claim_C3_sandwich (minD maxD d : Nat)
    (hd1 : minD ≤ d) (hd2 : d ≤ maxD) (h03 : DATE_03 ≤ d)
    (hhol : holBase minD maxD d = true)
    (hnofire : ¬(weekday d = 6 ∧
      (if d < DATE_07 then holBase minD maxD (d + 1) = false ∧ d + 1 ≤ maxD
       else skipHolidays (holBase minD maxD) (maxD + 2 - d) (d + 1) ≤ maxD)))
    (h2hol : holBase minD maxD (d + 2) = true)
    (h1hol : holBase minD maxD (d + 1) = false)
    (h1sun : weekday (d + 1) ≠ 6)
    (h1max : d + 1 ≤ maxD) :
    (d + 1, "国民の休日") ∈ kokuminnokyujitsu minD maxD (holBase minD maxD) := by
  have hsand : (d + 1, "国民の休日") ∈ sandwich (holBase minD maxD) maxD d := by
    unfold sandwich
    rw [if_pos h2hol]
    rw [if_pos (show (!holBase minD maxD (d + 1) && weekday (d + 1) != 6 &&
        decide (d + 1 ≤ maxD)) = true by
      simp only [Bool.and_eq_true, Bool.not_eq_true', bne_iff_ne, ne_eq,
        decide_eq_true_eq]
      exact ⟨⟨h1hol, h1sun⟩, h1max⟩)]
    exact List.mem_singleton.mpr rfl
  unfold kokuminnokyujitsu
  refine List.mem_flatMap.mpr ⟨d, mem_iter_all_dates.mpr ⟨hd1, hd2⟩, ?_⟩
  unfold kokuminStep
  rw [if_neg (Nat.not_lt.mpr (le_trans (by decide : DATE_02 ≤ DATE_03) h03))]
  rw [if_neg (Nat.not_lt.mpr h03)]
  by_cases h07 : d < DATE_07
  · rw [if_pos h07, if_pos hhol]
    rw [if_neg (show ¬(weekday d == 6 && !holBase minD maxD (d + 1) &&
        decide (d + 1 ≤ maxD)) = true by
      simp only [Bool.and_eq_true, Bool.not_eq_true', beq_iff_eq, decide_eq_true_eq]
      rintro ⟨⟨hw, hh⟩, hm⟩
      exact hnofire ⟨hw, by rw [if_pos h07]; exact ⟨hh, hm⟩⟩)]
    exact hsand
  · rw [if_neg h07, if_pos hhol]
    rw [if_neg (show ¬(weekday d == 6 &&
        decide (skipHolidays (holBase minD maxD) (maxD + 2 - d) (d + 1) ≤ maxD)) = true by
      simp only [Bool.and_eq_true, beq_iff_eq, decide_eq_true_eq]
      rintro ⟨hw, hm⟩
      exact hnofire ⟨hw, by rw [if_neg h07]; exact hm⟩)]
    exact hsand

/-- Witness for C3 at the 1988 instance: 1988-05-03 (Tuesday, 憲法記念日) and
1988-05-05 (こどもの日) sandwich 1988-05-04 into 国民の休日. -/
theorem claim_C3_sandwich_witness :
    (toordinal 1988 5 4, "国民の休日") ∈
      kokuminnokyujitsu (toordinal 1988 1 1) (toordinal 1988 12 31)
        (holBase (toordinal 1988 1 1) (toordinal 1988 12 31)) :=
  claim_C3_sandwich (toordinal 1988 1 1) (toordinal 1988 12 31) (toordinal 1988 5 3)
    (by decide) (by decide) (by decide) (by decide)
    (by rintro ⟨hw, -⟩; revert hw; decide) (by decide) (by decide)
    (by decide) (by decide)

/-- C1 (counter-evidence, code bug): for the query range
`[2020-01-01, 2020-12-31]` the autumnal generator yields nothing at all, even
though the anchor stepped forward twice lands on 2020-09-22, inside the range:
both of its sweeps are guarded on the 2018 anchor's relation to the range and
are skipped entirely here.  Likewise both equinox generators drop a stepped
date equal to `max_date` (`< max_date` instead of `≤`): for the range
`[2018-01-01, 2018-03-21]` the vernal generator yields nothing although the
anchor's own date 2018-03-21 equals `max_date`. -/
theorem claim_C1_equinox_omissions :
    shubunnohi (toordinal 2020 1 1) (toordinal 2020 12 31) = [] ∧
      dtDate (shubunAnchor + 2 * deltaUs) = toordinal 2020 9 22 ∧
      toordinal 2020 1 1 ≤ toordinal 2020 9 22 ∧
      toordinal 2020 9 22 ≤ toordinal 2020 12 31 ∧
      shunbunnohi (toordinal 2018 1 1) (toordinal 2018 3 21) = [] ∧
      dtDate shunbunAnchor = toordinal 2018 3 21 := by
  exact ⟨by decide, by decide, by decide, by decide, by decide, by decide⟩

/-! ## Fuel stability: the unbounded loops exit before the deployed fuel -/

theorem fuel_stable_from {α : Type} (g : Nat → α) (N : Nat)
    (hstep : ∀ f, N ≤ f → g f = g (f + 1)) :
    ∀ extra, g (N + extra) = g N := by
  intro extra
  induction extra with
  | zero => rfl
  | succ e ih =>
    have h : N + (e + 1) = (N + e) + 1 := by omega
    rw [h, ← hstep (N + e) (by omega), ih]

theorem shunbunBackLoop_step_stable {minD maxD : Nat} (hmin : DATE_00 ≤ minD) :
    ∀ fuel dt, dtDate dt / 365 + 1 ≤ fuel →
      shunbunBackLoop minD maxD fuel dt = shunbunBackLoop minD maxD (fuel + 1) dt := by
  intro fuel
  induction fuel with
  | zero =>
    intro dt h
    exact absurd h (by omega)
  | succ f ih =>
    intro dt h
    by_cases hc : minD ≤ dtDate dt
    · have hD : DATE_00 = 711331 := by decide
      have hme : dtDate (dt - deltaUs) / 365 + 1 ≤ f := by
        unfold dtDate usPerDay at hc ⊢
        unfold dtDate usPerDay at h
        unfold deltaUs
        omega
      unfold shunbunBackLoop
      rw [if_pos hc, if_pos hc, ih (dt - deltaUs) hme]
    · unfold shunbunBackLoop
      rw [if_neg hc, if_neg hc]

theorem shunbunFwdLoop_step_stable {minD maxD : Nat} :
    ∀ fuel dt, (maxD - dtDate dt + 364) / 365 ≤ fuel →
      shunbunFwdLoop minD maxD fuel dt = shunbunFwdLoop minD maxD (fuel + 1) dt := by
  intro fuel
  induction fuel with
  | zero =>
    intro dt h
    have hc : ¬dtDate dt < maxD := by
      unfold dtDate usPerDay at h ⊢
      omega
    unfold shunbunFwdLoop
    rw [if_neg hc]
  | succ f ih =>
    intro dt h
    by_cases hc : dtDate dt < maxD
    · have hme : (maxD - dtDate (dt + deltaUs) + 364) / 365 ≤ f := by
        unfold dtDate usPerDay at hc ⊢
        unfold dtDate usPerDay at h
        unfold deltaUs
        omega
      unfold shunbunFwdLoop
      rw [if_pos hc, if_pos hc, ih (dt + deltaUs) hme]
    · unfold shunbunFwdLoop
      rw [if_neg hc, if_neg hc]

theorem shubunBackLoop_step_stable {minD : Nat} (hmin : DATE_00 ≤ minD) :
    ∀ fuel dt, dtDate dt / 365 + 1 ≤ fuel →
      shubunBackLoop minD fuel dt = shubunBackLoop minD (fuel + 1) dt := by
  intro fuel
  induction fuel with
  | zero =>
    intro dt h
    exact absurd h (by omega)
  | succ f ih =>
    intro dt h
    by_cases hc : minD ≤ dtDate dt
    · have hD : DATE_00 = 711331 := by decide
      have hme : dtDate (dt - deltaUs) / 365 + 1 ≤ f := by
        unfold dtDate usPerDay at hc ⊢
        unfold dtDate usPerDay at h
        unfold deltaUs
        omega
      unfold shubunBackLoop
      rw [if_pos hc, if_pos hc, ih (dt - deltaUs) hme]
    · unfold shubunBackLoop
      rw [if_neg hc, if_neg hc]

theorem shubunFwdLoop_step_stable {maxD : Nat} :
    ∀ fuel dt, (maxD - dtDate dt + 364) / 365 ≤ fuel →
      shubunFwdLoop maxD fuel dt = shubunFwdLoop maxD (fuel + 1) dt := by
  intro fuel
  induction fuel with
  | zero =>
    intro dt h
    have hc : ¬dtDate dt < maxD := by
      unfold dtDate usPerDay at h ⊢
      omega
    unfold shubunFwdLoop
    rw [if_neg hc]
  | succ f ih =>
    intro dt h
    by_cases hc : dtDate dt < maxD
    · have hme : (maxD - dtDate (dt + deltaUs) + 364) / 365 ≤ f := by
        unfold dtDate usPerDay at hc ⊢
        unfold dtDate usPerDay at h
        unfold deltaUs
        omega
      unfold shubunFwdLoop
      rw [if_pos hc, if_pos hc, ih (dt + deltaUs) hme]
    · unfold shubunFwdLoop
      rw [if_neg hc, if_neg hc]

theorem skipHolidays_stable {hol : Nat → Bool} {B : Nat}
    (hB : ∀ o, hol o = true → o ≤ B) :
    ∀ fuel start, B + 2 - start ≤ fuel →
      skipHolidays hol fuel start = skipHolidays hol (fuel + 1) start := by
  intro fuel
  induction fuel with
  | zero =>
    intro start hf
    have hstart : hol start = false := by
      cases hh : hol start
      · rfl
      · have := hB start hh
        omega
    unfold skipHolidays
    rw [if_neg (by simp [hstart])]
  | succ f ih =>
    intro start hf
    cases hh : hol start with
    | false =>
      unfold skipHolidays
      rw [if_neg (by simp [hh]), if_neg (by simp [hh])]
    | true =>
      have := hB start hh
      unfold skipHolidays
      rw [if_pos (by simp [hh]), if_pos (by simp [hh]), ih (start + 1) (by omega)]

/-- C10: the computation of the map terminates.  The drop/take clipping of
each yearly stream consumes only finitely many elements (all elements from
index `yearCount maxD` on already exceed `maxD`); each equinox loop exits
before its deployed fuel, so larger fuel returns the identical list (the
stepped instant leaves the window); and the era-3 skip loop is likewise
fuel-stable at its deployed fuel because every base-holiday key is at most
`maxD`. -/
theorem claim_C10_termination (minD maxD : Nat) :
    (∀ m d k, yearCount maxD ≤ k → maxD < dateStream m d k) ∧
    (∀ m n k, yearCount maxD ≤ k → maxD < mondayStream m n k) ∧
    (∀ extra,
      shunbunBackLoop (max DATE_00 minD) maxD (backFuel + extra) shunbunAnchor =
        shunbunBackLoop (max DATE_00 minD) maxD backFuel shunbunAnchor ∧
      shunbunFwdLoop (max DATE_00 minD) maxD (fwdFuel maxD + extra) shunbunFwdStart =
        shunbunFwdLoop (max DATE_00 minD) maxD (fwdFuel maxD) shunbunFwdStart ∧
      shubunBackLoop (max DATE_00 minD) (backFuel + extra) shubunAnchor =
        shubunBackLoop (max DATE_00 minD) backFuel shubunAnchor ∧
      shubunFwdLoop maxD (fwdFuel maxD + extra) (shubunAnchor + deltaUs) =
        shubunFwdLoop maxD (fwdFuel maxD) (shubunAnchor + deltaUs)) ∧
    (∀ d extra, d ≤ maxD →
      skipHolidays (holBase minD maxD) (maxD + 2 - d + extra) (d + 1) =
        skipHolidays (holBase minD maxD) (maxD + 2 - d) (d + 1)) := by
  have hmin : DATE_00 ≤ max DATE_00 minD := le_max_left _ _
  refine ⟨fun m d k hk => dateStream_escapes m d maxD k hk,
    fun m n k hk => mondayStream_escapes m n maxD k hk,
    fun extra => ⟨?_, ?_, ?_, ?_⟩, fun d extra hd => ?_⟩
  · exact fuel_stable_from (fun f => shunbunBackLoop (max DATE_00 minD) maxD f shunbunAnchor)
      backFuel (fun f hf => shunbunBackLoop_step_stable hmin f shunbunAnchor
        (le_trans (by decide) hf)) extra
  · refine fuel_stable_from (fun f => shunbunFwdLoop (max DATE_00 minD) maxD f shunbunFwdStart)
      (fwdFuel maxD) (fun f hf => shunbunFwdLoop_step_stable f shunbunFwdStart ?_) extra
    unfold fwdFuel at hf
    omega
  · exact fuel_stable_from (fun f => shubunBackLoop (max DATE_00 minD) f shubunAnchor)
      backFuel (fun f hf => shubunBackLoop_step_stable hmin f shubunAnchor
        (le_trans (by decide) hf)) extra
  · refine fuel_stable_from (fun f => shubunFwdLoop maxD f (shubunAnchor + deltaUs))
      (fwdFuel maxD) (fun f hf => shubunFwdLoop_step_stable f (shubunAnchor + deltaUs) ?_) extra
    unfold fwdFuel at hf
    omega
  · have hB : ∀ o, holBase minD maxD o = true → o ≤ maxD := fun o ho => holBase_le_maxD ho
    exact fuel_stable_from (fun f => skipHolidays (holBase minD maxD) f (d + 1))
      (maxD + 2 - d) (fun f hf => skipHolidays_stable hB f (d + 1) (by omega)) extra

/-- Witness for C10 at the 2018 instance. -/
theorem claim_C10_termination_witness :
    toordinal 2018 12 31 < dateStream 1 1 (yearCount (toordinal 2018 12 31)) ∧
      skipHolidays (holBase (toordinal 2018 1 1) (toordinal 2018 12 31))
          (toordinal 2018 12 31 + 2 - toordinal 2018 12 31 + 5) (toordinal 2018 12 31 + 1) =
        skipHolidays (holBase (toordinal 2018 1 1) (toordinal 2018 12 31))
          (toordinal 2018 12 31 + 2 - toordinal 2018 12 31) (toordinal 2018 12 31 + 1) :=
  ⟨(claim_C10_termination (toordinal 2018 1 1) (toordinal 2018 12 31)).1 1 1
      (yearCount (toordinal 2018 12 31)) (le_refl _),
    (claim_C10_termination (toordinal 2018 1 1) (toordinal 2018 12 31)).2.2.2
      (toordinal 2018 12 31) 5 (le_refl _)⟩

/-! ## Which stream elements can hit a given date -/

theorem dateStream_strictMono (m d : Nat) : StrictMono (dateStream m d) :=
  strictMono_nat_of_lt_succ (fun k => by have := dateStream_step m d k; omega)

theorem mondayStream_strictMono (m n : Nat) : StrictMono (mondayStream m n) :=
  strictMono_nat_of_lt_succ (fun k => by have := mondayStream_step m n k; omega)

theorem stream_avoids {s : Nat → Nat} (hs : StrictMono s) {a T : Nat}
    (h1 : s a < T) (h2 : T < s (a + 1)) (k : Nat) : s k ≠ T := by
  intro hk
  rcases le_or_lt k a with h | h
  · have := hs.le_iff_le.mpr h
    omega
  · have hk1 : a + 1 ≤ k := h
    have := hs.le_iff_le.mpr hk1
    omega

theorem stream_window_unique {s : Nat → Nat} (hs : StrictMono s) {lo hi a : Nat}
    (h1 : s a < lo) (h2 : hi < s (a + 2)) :
    ∀ k, lo ≤ s k → s k ≤ hi → k = a + 1 := by
  intro k hk1 hk2
  by_contra hne
  rcases lt_or_gt_of_ne hne with h | h
  · have : k ≤ a := by omega
    have := hs.le_iff_le.mpr this
    omega
  · have : a + 2 ≤ k := by omega
    have := hs.le_iff_le.mpr this
    omega

theorem fixedGen_avoids {nm : String} {m d lo : Nat} {hi : Option Nat} {minD maxD T : Nat}
    (a : Nat) (h1 : dateStream m d a < T) (h2 : T < dateStream m d (a + 1)) :
    ∀ p ∈ fixedGen nm m d lo hi minD maxD, p.1 ≠ T := by
  intro p hp hT
  rcases (mem_fixedGen.mp hp).1 with ⟨k, hk⟩
  exact stream_avoids (dateStream_strictMono m d) h1 h2 k (by rw [hk, hT])

theorem fixedGen_bounded_avoids {nm : String} {m d lo b : Nat} {minD maxD T : Nat}
    (hb : b < T) : ∀ p ∈ fixedGen nm m d lo (some b) minD maxD, p.1 ≠ T := by
  intro p hp hT
  have hle : leOpt p.1 (some b) := (mem_fixedGen.mp hp).2.2.2.2.1
  have : p.1 ≤ b := hle
  omega

theorem mondayGen_avoids {nm : String} {m n lo : Nat} {hi : Option Nat} {minD maxD T : Nat}
    (a : Nat) (h1 : mondayStream m n a < T) (h2 : T < mondayStream m n (a + 1)) :
    ∀ p ∈ mondayGen nm m n lo hi minD maxD, p.1 ≠ T := by
  intro p hp hT
  rcases (mem_mondayGen.mp hp).1 with ⟨k, hk⟩
  exact stream_avoids (mondayStream_strictMono m n) h1 h2 k (by rw [hk, hT])

theorem mondayGen_bounded_avoids {nm : String} {m n lo b : Nat} {minD maxD T : Nat}
    (hb : b < T) : ∀ p ∈ mondayGen nm m n lo (some b) minD maxD, p.1 ≠ T := by
  intro p hp hT
  have hle : leOpt p.1 (some b) := (mem_mondayGen.mp hp).2.2.2.2.1
  have : p.1 ≤ b := hle
  omega

theorem fixedGenSkip_avoids {nm : String} {m d lo : Nat} {minD maxD T : Nat}
    (a : Nat) (h1 : dateStream m d a < T) (h2 : T < dateStream m d (a + 1)) :
    ∀ p ∈ fixedGenSkip nm m d lo minD maxD, p.1 ≠ T := by
  intro p hp hT
  rcases (mem_fixedGenSkip.mp hp).1 with ⟨k, hk⟩
  exact stream_avoids (dateStream_strictMono m d) h1 h2 k (by rw [hk, hT])

theorem mondayGenSkip_avoids {nm : String} {m n lo : Nat} {minD maxD T : Nat}
    (a : Nat) (h1 : mondayStream m n a < T) (h2 : T < mondayStream m n (a + 1)) :
    ∀ p ∈ mondayGenSkip nm m n lo minD maxD, p.1 ≠ T := by
  intro p hp hT
  rcases (mem_mondayGenSkip.mp hp).1 with ⟨k, hk⟩
  exact stream_avoids (mondayStream_strictMono m n) h1 h2 k (by rw [hk, hT])

theorem override_avoids {nm : String} {d minD maxD T : Nat} (h : d ≠ T) :
    ∀ p ∈ override nm d minD maxD, p.1 ≠ T := by
  intro p hp
  rcases (mem_override.mp hp).1 with rfl
  exact h

theorem shunbunFwdLoop_mem_cases {minD maxD fuel dt : Nat} {p : Nat × String}
    (h : p ∈ shunbunFwdLoop minD maxD (fuel + 1) dt) :
    p.1 = dtDate dt ∨ p ∈ shunbunFwdLoop minD maxD fuel (dt + deltaUs) := by
  unfold shunbunFwdLoop at h
  split at h
  · rcases List.mem_append.mp h with h1 | h2
    · split at h1
      · rcases List.mem_singleton.mp h1 with rfl
        exact Or.inl rfl
      · simp at h1
    · exact Or.inr h2
  · simp at h

theorem shunbunFwdLoop_avoids {minD maxD T : Nat} (dt : Nat)
    (h1 : dtDate dt ≠ T) (h2 : dtDate (dt + deltaUs) ≠ T)
    (h3 : T < dtDate (dt + deltaUs + deltaUs)) :
    ∀ fuel, ∀ p ∈ shunbunFwdLoop minD maxD fuel dt, p.1 ≠ T := by
  intro fuel p hp
  cases fuel with
  | zero => simp [shunbunFwdLoop] at hp
  | succ f =>
    rcases shunbunFwdLoop_mem_cases hp with he | hp2
    · rw [he]; exact h1
    · cases f with
      | zero => simp [shunbunFwdLoop] at hp2
      | succ f2 =>
        rcases shunbunFwdLoop_mem_cases hp2 with he | hp3
        · rw [he]; exact h2
        · have := (mem_shunbunFwdLoop hp3).2.2.1
          omega

theorem shubunFwdLoop_mem_cases {maxD fuel dt : Nat} {p : Nat × String}
    (h : p ∈ shubunFwdLoop maxD (fuel + 1) dt) :
    p.1 = dtDate dt ∨ p ∈ shubunFwdLoop maxD fuel (dt + deltaUs) := by
  unfold shubunFwdLoop at h
  split at h
  · rcases List.mem_cons.mp h with rfl | h2
    · exact Or.inl rfl
    · exact Or.inr h2
  · simp at h

theorem shubunFwdLoop_avoids {maxD T : Nat} (dt : Nat)
    (h1 : dtDate dt ≠ T) (h2 : dtDate (dt + deltaUs) ≠ T)
    (h3 : T < dtDate (dt + deltaUs + deltaUs)) :
    ∀ fuel, ∀ p ∈ shubunFwdLoop maxD fuel dt, p.1 ≠ T := by
  intro fuel p hp
  cases fuel with
  | zero => simp [shubunFwdLoop] at hp
  | succ f =>
    rcases shubunFwdLoop_mem_cases hp with he | hp2
    · rw [he]; exact h1
    · cases f with
      | zero => simp [shubunFwdLoop] at hp2
      | succ f2 =>
        rcases shubunFwdLoop_mem_cases hp2 with he | hp3
        · rw [he]; exact h2
        · have := (mem_shubunFwdLoop hp3).1
          omega

theorem shunbunnohi_avoids {minD maxD T : Nat}
    (hback : dtDate shunbunAnchor < T)
    (h1 : dtDate shunbunFwdStart ≠ T) (h2 : dtDate (shunbunFwdStart + deltaUs) ≠ T)
    (h3 : T < dtDate (shunbunFwdStart + deltaUs + deltaUs)) :
    ∀ p ∈ shunbunnohi minD maxD, p.1 ≠ T := by
  intro p hp
  rcases List.mem_append.mp hp with h | h
  · have := (mem_shunbunBackLoop h).2.2.1
    omega
  · exact shunbunFwdLoop_avoids shunbunFwdStart h1 h2 h3 _ p h

theorem shubunnohi_avoids {minD maxD T : Nat}
    (hback : dtDate shubunAnchor < T)
    (h1 : dtDate (shubunAnchor + deltaUs) ≠ T)
    (h2 : dtDate (shubunAnchor + deltaUs + deltaUs) ≠ T)
    (h3 : T < dtDate (shubunAnchor + deltaUs + deltaUs + deltaUs)) :
    ∀ p ∈ shubunnohi minD maxD, p.1 ≠ T := by
  intro p hp
  unfold shubunnohi at hp
  rcases List.mem_append.mp hp with h | h
  · split at h
    · have := (mem_shubunBackLoop h).2.1
      omega
    · simp at h
  · split at h
    · exact shubunFwdLoop_avoids (shubunAnchor + deltaUs) h1 h2 h3 _ p h
    · simp at h

theorem special_avoids {minD maxD T : Nat}
    (h : ∀ p ∈ specialRaw, p.1 ≠ T) :
    ∀ p ∈ special minD maxD, p.1 ≠ T :=
  fun p hp => h p (mem_special hp).1

theorem dlookup_append_none {l1 l2 : List (Nat × String)} {k : Nat}
    (h : dlookup l2 k = none) : dlookup (l1 ++ l2) k = dlookup l1 k := by
  rw [dlookup_append, h]

theorem dlookup_append_some {l1 l2 : List (Nat × String)} {k : Nat} {v : String}
    (h : dlookup l2 k = some v) : dlookup (l1 ++ l2) k = some v := by
  rw [dlookup_append, h]

/-! ## The 2020 one-off overrides (C6) -/

theorem base_binding_persists {minD maxD k : Nat} {v : String}
    (hv : dlookup (baseList minD maxD) k = some v) : holidays minD maxD k = some v := by
  unfold holidays finalList
  rw [dlookup_append]
  rcases hk : dlookup (kokuminnokyujitsu minD maxD (holBase minD maxD)) k with _ | w
  · exact hv
  · have hnone := kokumin_keys_not_base (dlookup_eq_some_mem hk)
    rw [hnone] at hv
    cases hv

theorem yamanohi_avoids {minD maxD T : Nat}
    (h1 : dateStream 8 11 71 < T) (h2 : T < dateStream 8 11 (71 + 1))
    (hov : toordinal 2020 8 10 ≠ T) :
    ∀ p ∈ yamanohi minD maxD, p.1 ≠ T := by
  intro p hp
  rcases List.mem_append.mp hp with h | h
  · exact fixedGenSkip_avoids 71 h1 h2 p h
  · exact override_avoids hov p h

theorem keironohi_avoids {minD maxD T : Nat} (hb : DATE_06 < T)
    (h1 : mondayStream 9 3 71 < T) (h2 : T < mondayStream 9 3 (71 + 1)) :
    ∀ p ∈ keironohi minD maxD, p.1 ≠ T := by
  intro p hp
  rcases List.mem_append.mp hp with h | h
  · exact fixedGen_bounded_avoids hb p h
  · exact mondayGen_avoids 71 h1 h2 p h

theorem supotsunohi_avoids {minD maxD T : Nat}
    (h1 : mondayStream 10 2 71 < T) (h2 : T < mondayStream 10 2 (71 + 1))
    (hov : toordinal 2020 7 24 ≠ T) :
    ∀ p ∈ supotsunohi minD maxD, p.1 ≠ T := by
  intro p hp
  rcases List.mem_append.mp hp with h | h
  · exact mondayGenSkip_avoids 71 h1 h2 p h
  · exact override_avoids hov p h

theorem taikunohi_avoids {minD maxD T : Nat} (hb1 : DATE_HM < T) (hb2 : DATE_09 < T) :
    ∀ p ∈ taikunohi minD maxD, p.1 ≠ T := by
  intro p hp
  rcases List.mem_append.mp hp with h | h
  · exact fixedGen_bounded_avoids hb1 p h
  · exact mondayGen_bounded_avoids hb2 p h

theorem bunkanohi_avoids {minD maxD T : Nat}
    (h1 : dateStream 11 3 71 < T) (h2 : T < dateStream 11 3 (71 + 1)) :
    ∀ p ∈ bunkanohi minD maxD, p.1 ≠ T :=
  fun p hp => fixedGen_avoids 71 h1 h2 p hp

theorem kinrokanshanohi_avoids {minD maxD T : Nat}
    (h1 : dateStream 11 23 71 < T) (h2 : T < dateStream 11 23 (71 + 1)) :
    ∀ p ∈ kinrokanshanohi minD maxD, p.1 ≠ T :=
  fun p hp => fixedGen_avoids 71 h1 h2 p hp

theorem tennotanjobi_avoids {minD maxD T : Nat} (hb1 : DATE_04 < T) (hb2 : DATE_TT < T)
    (hs1 : dateStream 2 23 72 < T) (hs2 : T < dateStream 2 23 (72 + 1)) :
    ∀ p ∈ tennotanjobi minD maxD, p.1 ≠ T := by
  intro p hp
  rcases List.mem_append.mp hp with h | h3
  · rcases List.mem_append.mp h with h1 | h1
    · exact fixedGen_bounded_avoids hb1 p h1
    · exact fixedGen_bounded_avoids hb2 p h1
  · exact fixedGen_avoids 72 hs1 hs2 p h3

theorem dlookup_uminohi_d723 {minD maxD : Nat}
    (hmin : minD ≤ toordinal 2020 7 23) (hmax : toordinal 2020 7 23 ≤ maxD) :
    dlookup (uminohi minD maxD) (toordinal 2020 7 23) = some ("海の日") := by
  unfold uminohi
  refine dlookup_append_some ?_
  unfold override
  rw [if_pos ⟨hmin, hmax⟩]
  simp [dlookup]

theorem dlookup_supotsunohi_d724 {minD maxD : Nat}
    (hmin : minD ≤ toordinal 2020 7 24) (hmax : toordinal 2020 7 24 ≤ maxD) :
    dlookup (supotsunohi minD maxD) (toordinal 2020 7 24) = some ("スポーツの日") := by
  unfold supotsunohi
  refine dlookup_append_some ?_
  unfold override
  rw [if_pos ⟨hmin, hmax⟩]
  simp [dlookup]

theorem dlookup_yamanohi_d810 {minD maxD : Nat}
    (hmin : minD ≤ toordinal 2020 8 10) (hmax : toordinal 2020 8 10 ≤ maxD) :
    dlookup (yamanohi minD maxD) (toordinal 2020 8 10) = some ("山の日") := by
  unfold yamanohi
  refine dlookup_append_some ?_
  unfold override
  rw [if_pos ⟨hmin, hmax⟩]
  simp [dlookup]

theorem dlookup_baseList_d723 {minD maxD : Nat}
    (hmin : minD ≤ toordinal 2020 7 23) (hmax : toordinal 2020 7 23 ≤ maxD) :
    dlookup (baseList minD maxD) (toordinal 2020 7 23) = some ("海の日") := by
  unfold baseList
  rw [dlookup_append_none (dlookup_eq_none_iff.mpr (special_avoids (by decide)))]
  rw [dlookup_append_none (dlookup_eq_none_iff.mpr
    (tennotanjobi_avoids (by decide) (by decide) (by decide) (by decide)))]
  rw [dlookup_append_none (dlookup_eq_none_iff.mpr
    (kinrokanshanohi_avoids (by decide) (by decide)))]
  rw [dlookup_append_none (dlookup_eq_none_iff.mpr
    (bunkanohi_avoids (by decide) (by decide)))]
  rw [dlookup_append_none (dlookup_eq_none_iff.mpr
    (taikunohi_avoids (by decide) (by decide)))]
  rw [dlookup_append_none (dlookup_eq_none_iff.mpr
    (supotsunohi_avoids (by decide) (by decide) (by decide)))]
  rw [dlookup_append_none (dlookup_eq_none_iff.mpr
    (shubunnohi_avoids (by decide) (by decide) (by decide) (by decide)))]
  rw [dlookup_append_none (dlookup_eq_none_iff.mpr
    (keironohi_avoids (by decide) (by decide) (by decide)))]
  rw [dlookup_append_none (dlookup_eq_none_iff.mpr
    (yamanohi_avoids (by decide) (by decide) (by decide)))]
  exact dlookup_append_some (dlookup_uminohi_d723 hmin hmax)

theorem dlookup_baseList_d724 {minD maxD : Nat}
    (hmin : minD ≤ toordinal 2020 7 24) (hmax : toordinal 2020 7 24 ≤ maxD) :
    dlookup (baseList minD maxD) (toordinal 2020 7 24) = some ("スポーツの日") := by
  unfold baseList
  rw [dlookup_append_none (dlookup_eq_none_iff.mpr (special_avoids (by decide)))]
  rw [dlookup_append_none (dlookup_eq_none_iff.mpr
    (tennotanjobi_avoids (by decide) (by decide) (by decide) (by decide)))]
  rw [dlookup_append_none (dlookup_eq_none_iff.mpr
    (kinrokanshanohi_avoids (by decide) (by decide)))]
  rw [dlookup_append_none (dlookup_eq_none_iff.mpr
    (bunkanohi_avoids (by decide) (by decide)))]
  rw [dlookup_append_none (dlookup_eq_none_iff.mpr
    (taikunohi_avoids (by decide) (by decide)))]
  exact dlookup_append_some (dlookup_supotsunohi_d724 hmin hmax)

theorem dlookup_baseList_d810 {minD maxD : Nat}
    (hmin : minD ≤ toordinal 2020 8 10) (hmax : toordinal 2020 8 10 ≤ maxD) :
    dlookup (baseList minD maxD) (toordinal 2020 8 10) = some ("山の日") := by
  unfold baseList
  rw [dlookup_append_none (dlookup_eq_none_iff.mpr (special_avoids (by decide)))]
  rw [dlookup_append_none (dlookup_eq_none_iff.mpr
    (tennotanjobi_avoids (by decide) (by decide) (by decide) (by decide)))]
  rw [dlookup_append_none (dlookup_eq_none_iff.mpr
    (kinrokanshanohi_avoids (by decide) (by decide)))]
  rw [dlookup_append_none (dlookup_eq_none_iff.mpr
    (bunkanohi_avoids (by decide) (by decide)))]
  rw [dlookup_append_none (dlookup_eq_none_iff.mpr
    (taikunohi_avoids (by decide) (by decide)))]
  rw [dlookup_append_none (dlookup_eq_none_iff.mpr
    (supotsunohi_avoids (by decide) (by decide) (by decide)))]
  rw [dlookup_append_none (dlookup_eq_none_iff.mpr
    (shubunnohi_avoids (by decide) (by decide) (by decide) (by decide)))]
  rw [dlookup_append_none (dlookup_eq_none_iff.mpr
    (keironohi_avoids (by decide) (by decide) (by decide)))]
  exact dlookup_append_some (dlookup_yamanohi_d810 hmin hmax)

theorem uminohi_2020_only_override {minD maxD : Nat} :
    ∀ p ∈ uminohi minD maxD, DATE_09 ≤ p.1 → p.1 ≤ toordinal 2020 12 31 →
      p.1 = toordinal 2020 7 23 := by
  intro p hp hlo hhi
  rcases List.mem_append.mp hp with h | hov
  · exfalso
    rcases List.mem_append.mp h with h1 | h1
    · have hle : leOpt p.1 (some DATE_06) := (mem_fixedGen.mp h1).2.2.2.2.1
      have hlt : DATE_06 < DATE_09 := by decide
      have : p.1 ≤ DATE_06 := hle
      omega
    · have hm := mem_mondayGenSkip.mp h1
      rcases hm.1 with ⟨k, hk⟩
      have hk72 : k = 71 + 1 :=
        stream_window_unique (mondayStream_strictMono 7 3)
          (show mondayStream 7 3 71 < DATE_09 by decide)
          (show toordinal 2020 12 31 < mondayStream 7 3 (71 + 2) by decide) k
          (by omega) (by omega)
      apply hm.2.2.2.2.1
      rw [← hk, hk72]
      decide
  · rcases (mem_override.mp hov).1 with rfl
    rfl

theorem supotsunohi_2020_only_override {minD maxD : Nat} :
    ∀ p ∈ supotsunohi minD maxD, DATE_09 ≤ p.1 → p.1 ≤ toordinal 2020 12 31 →
      p.1 = toordinal 2020 7 24 := by
  intro p hp hlo hhi
  rcases List.mem_append.mp hp with h | h
  · exfalso
    have hm := mem_mondayGenSkip.mp h
    rcases hm.1 with ⟨k, hk⟩
    have hk72 : k = 71 + 1 :=
      stream_window_unique (mondayStream_strictMono 10 2)
        (show mondayStream 10 2 71 < DATE_09 by decide)
        (show toordinal 2020 12 31 < mondayStream 10 2 (71 + 2) by decide) k
        (by omega) (by omega)
    apply hm.2.2.2.2.1
    rw [← hk, hk72]
    decide
  · rcases (mem_override.mp h).1 with rfl
    rfl

theorem yamanohi_2020_only_override {minD maxD : Nat} :
    ∀ p ∈ yamanohi minD maxD, DATE_09 ≤ p.1 → p.1 ≤ toordinal 2020 12 31 →
      p.1 = toordinal 2020 8 10 := by
  intro p hp hlo hhi
  rcases List.mem_append.mp hp with h | h
  · exfalso
    have hm := mem_fixedGenSkip.mp h
    rcases hm.1 with ⟨k, hk⟩
    have hk72 : k = 71 + 1 :=
      stream_window_unique (dateStream_strictMono 8 11)
        (show dateStream 8 11 71 < DATE_09 by decide)
        (show toordinal 2020 12 31 < dateStream 8 11 (71 + 2) by decide) k
        (by omega) (by omega)
    apply hm.2.2.2.2.1
    rw [← hk, hk72]
    decide
  · rcases (mem_override.mp h).1 with rfl
    rfl

theorem taikunohi_no_2020 {minD maxD : Nat} :
    ∀ p ∈ taikunohi minD maxD, ¬(DATE_09 ≤ p.1 ∧ p.1 ≤ toordinal 2020 12 31) := by
  rintro p hp ⟨hlo, hhi⟩
  rcases List.mem_append.mp hp with h | h
  · have hle : leOpt p.1 (some DATE_HM) := (mem_fixedGen.mp h).2.2.2.2.1
    have hlt : DATE_HM < DATE_09 := by decide
    have : p.1 ≤ DATE_HM := hle
    omega
  · have hm := mem_mondayGen.mp h
    have hle : leOpt p.1 (some DATE_09) := hm.2.2.2.2.1
    have hle2 : p.1 ≤ DATE_09 := hle
    rcases hm.1 with ⟨k, hk⟩
    refine stream_avoids (mondayStream_strictMono 10 2)
      (show mondayStream 10 2 71 < DATE_09 by decide)
      (show DATE_09 < mondayStream 10 2 (71 + 1) by decide) k ?_
    rw [hk]
    omega

/-- C6: for every query range, the three literal 2020 override dates are
yielded exactly when in range; the three generators contribute no other date
of year 2020 (and the former Health-Sports generator none at all); and for a
range containing all of 2020 the resolved map carries the three override
labels. -/
theorem claim_C6_2020_overrides (minD maxD : Nat) :
    ((toordinal 2020 7 23, "海の日") ∈ uminohi minD maxD ↔
        minD ≤ toordinal 2020 7 23 ∧ toordinal 2020 7 23 ≤ maxD) ∧
    ((toordinal 2020 7 24, "スポーツの日") ∈ supotsunohi minD maxD ↔
        minD ≤ toordinal 2020 7 24 ∧ toordinal 2020 7 24 ≤ maxD) ∧
    ((toordinal 2020 8 10, "山の日") ∈ yamanohi minD maxD ↔
        minD ≤ toordinal 2020 8 10 ∧ toordinal 2020 8 10 ≤ maxD) ∧
    (∀ p ∈ uminohi minD maxD, DATE_09 ≤ p.1 → p.1 ≤ toordinal 2020 12 31 →
        p.1 = toordinal 2020 7 23) ∧
    (∀ p ∈ supotsunohi minD maxD, DATE_09 ≤ p.1 → p.1 ≤ toordinal 2020 12 31 →
        p.1 = toordinal 2020 7 24) ∧
    (∀ p ∈ yamanohi minD maxD, DATE_09 ≤ p.1 → p.1 ≤ toordinal 2020 12 31 →
        p.1 = toordinal 2020 8 10) ∧
    (∀ p ∈ taikunohi minD maxD, ¬(DATE_09 ≤ p.1 ∧ p.1 ≤ toordinal 2020 12 31)) ∧
    (minD ≤ DATE_09 → toordinal 2020 12 31 ≤ maxD →
      holidays minD maxD (toordinal 2020 7 23) = some ("海の日") ∧
      holidays minD maxD (toordinal 2020 7 24) = some ("スポーツの日") ∧
      holidays minD maxD (toordinal 2020 8 10) = some ("山の日")) := by
  refine ⟨?_, ?_, ?_, uminohi_2020_only_override, supotsunohi_2020_only_override,
    yamanohi_2020_only_override, taikunohi_no_2020, fun hmin hmax => ?_⟩
  · constructor
    · intro h
      rcases List.mem_append.mp h with h1 | hov
      · exfalso
        rcases List.mem_append.mp h1 with h2 | h2
        · exact fixedGen_bounded_avoids
            (show DATE_06 < toordinal 2020 7 23 by decide) _ h2 rfl
        · exact mondayGenSkip_avoids 72 (by decide) (by decide) _ h2 rfl
      · have := mem_override.mp hov
        exact ⟨this.2.1, this.2.2⟩
    · rintro ⟨h1, h2⟩
      exact List.mem_append.mpr (Or.inr (mem_override.mpr ⟨rfl, h1, h2⟩))
  · constructor
    · intro h
      rcases List.mem_append.mp h with h1 | h1
      · exact absurd rfl (mondayGenSkip_avoids 71 (by decide) (by decide) _ h1)
      · have := mem_override.mp h1
        exact ⟨this.2.1, this.2.2⟩
    · rintro ⟨h1, h2⟩
      exact List.mem_append.mpr (Or.inr (mem_override.mpr ⟨rfl, h1, h2⟩))
  · constructor
    · intro h
      rcases List.mem_append.mp h with h1 | h1
      · exact absurd rfl (fixedGenSkip_avoids 71 (by decide) (by decide) _ h1)
      · have := mem_override.mp h1
        exact ⟨this.2.1, this.2.2⟩
    · rintro ⟨h1, h2⟩
      exact List.mem_append.mpr (Or.inr (mem_override.mpr ⟨rfl, h1, h2⟩))
  · have hc : DATE_09 ≤ toordinal 2020 7 23 ∧ toordinal 2020 7 23 ≤ toordinal 2020 12 31 ∧
        DATE_09 ≤ toordinal 2020 7 24 ∧ toordinal 2020 7 24 ≤ toordinal 2020 12 31 ∧
        DATE_09 ≤ toordinal 2020 8 10 ∧ toordinal 2020 8 10 ≤ toordinal 2020 12 31 := by
      decide
    exact ⟨base_binding_persists (dlookup_baseList_d723 (by omega) (by omega)),
      base_binding_persists (dlookup_baseList_d724 (by omega) (by omega)),
      base_binding_persists (dlookup_baseList_d810 (by omega) (by omega))⟩

/-- Witness for C6 at the instance `[2020-01-01, 2020-12-31]`. -/
theorem claim_C6_2020_overrides_witness :
    ((toordinal 2020 7 23, "海の日") ∈
        uminohi (toordinal 2020 1 1) (toordinal 2020 12 31)) ∧
      holidays (toordinal 2020 1 1) (toordinal 2020 12 31) (toordinal 2020 7 23) =
        some ("海の日") ∧
      holidays (toordinal 2020 1 1) (toordinal 2020 12 31) (toordinal 2020 7 24) =
        some ("スポーツの日") ∧
      holidays (toordinal 2020 1 1) (toordinal 2020 12 31) (toordinal 2020 8 10) =
        some ("山の日") :=
  ⟨(claim_C6_2020_overrides (toordinal 2020 1 1) (toordinal 2020 12 31)).1.mpr
      ⟨by decide, by decide⟩,
    (claim_C6_2020_overrides (toordinal 2020 1 1) (toordinal 2020 12 31)).2.2.2.2.2.2.2
      (by decide) (by decide)⟩

/-! ## Era windows of one holiday never repeat a date (C8) -/

theorem withName_pairwise {nm : String} {l : List Nat} (h : l.Pairwise (· < ·)) :
    (withName nm l).Pairwise (fun p q => p.1 ≠ q.1) := by
  unfold withName
  refine List.pairwise_map.mpr (h.imp ?_)
  intro a b hab
  simpa using Nat.ne_of_lt hab

theorem fixedGen_pairwise {nm : String} {m d lo : Nat} {hi : Option Nat} {minD maxD : Nat} :
    (fixedGen nm m d lo hi minD maxD).Pairwise (fun p q => p.1 ≠ q.1) :=
  withName_pairwise (List.Pairwise.sublist (sortedDatesFilter_sublist _ _ _)
    (iter_dates_pairwise minD maxD m d))

theorem mondayGen_pairwise {nm : String} {m n lo : Nat} {hi : Option Nat} {minD maxD : Nat} :
    (mondayGen nm m n lo hi minD maxD).Pairwise (fun p q => p.1 ≠ q.1) :=
  withName_pairwise (List.Pairwise.sublist (sortedDatesFilter_sublist _ _ _)
    (iter_nth_monday_pairwise minD maxD m n))

theorem fixedGenSkip_pairwise {nm : String} {m d lo minD maxD : Nat} :
    (fixedGenSkip nm m d lo minD maxD).Pairwise (fun p q => p.1 ≠ q.1) :=
  withName_pairwise (List.Pairwise.sublist
    ((List.filter_sublist _).trans (sortedDatesFilter_sublist _ _ _))
    (iter_dates_pairwise minD maxD m d))

theorem mondayGenSkip_pairwise {nm : String} {m n lo minD maxD : Nat} :
    (mondayGenSkip nm m n lo minD maxD).Pairwise (fun p q => p.1 ≠ q.1) :=
  withName_pairwise (List.Pairwise.sublist
    ((List.filter_sublist _).trans (sortedDatesFilter_sublist _ _ _))
    (iter_nth_monday_pairwise minD maxD m n))

theorem override_pairwise {nm : String} {d minD maxD : Nat} :
    (override nm d minD maxD).Pairwise (fun p q => p.1 ≠ q.1) := by
  unfold override
  split <;> simp

theorem cross_ne_of_bounds {l1 l2 : List (Nat × String)} {C : Nat}
    (h1 : ∀ p ∈ l1, p.1 ≤ C ∧ p.1 ≠ C) (h2 : ∀ q ∈ l2, C ≤ q.1) :
    ∀ p ∈ l1, ∀ q ∈ l2, p.1 ≠ q.1 := by
  intro p hp q hq
  have hx := h1 p hp
  have hy := h2 q hq
  omega

theorem fixedGen_below_cut {nm : String} {m d lo C minD maxD : Nat} (a : Nat)
    (h1 : dateStream m d a < C) (h2 : C < dateStream m d (a + 1)) :
    ∀ p ∈ fixedGen nm m d lo (some C) minD maxD, p.1 ≤ C ∧ p.1 ≠ C := by
  intro p hp
  have hle : leOpt p.1 (some C) := (mem_fixedGen.mp hp).2.2.2.2.1
  exact ⟨hle, fixedGen_avoids a h1 h2 p hp⟩

theorem mondayGen_below_cut {nm : String} {m n lo C minD maxD : Nat} (a : Nat)
    (h1 : mondayStream m n a < C) (h2 : C < mondayStream m n (a + 1)) :
    ∀ p ∈ mondayGen nm m n lo (some C) minD maxD, p.1 ≤ C ∧ p.1 ≠ C := by
  intro p hp
  have hle : leOpt p.1 (some C) := (mem_mondayGen.mp hp).2.2.2.2.1
  exact ⟨hle, mondayGen_avoids a h1 h2 p hp⟩

theorem seijinnohi_keys_distinct (minD maxD : Nat) :
    (seijinnohi minD maxD).Pairwise (fun p q => p.1 ≠ q.1) := by
  unfold seijinnohi
  refine List.pairwise_append.mpr ⟨fixedGen_pairwise, mondayGen_pairwise, ?_⟩
  exact cross_ne_of_bounds (fixedGen_below_cut 51 (by decide) (by decide))
    (fun q hq => (mem_mondayGen.mp hq).2.2.2.1)

theorem keironohi_keys_distinct (minD maxD : Nat) :
    (keironohi minD maxD).Pairwise (fun p q => p.1 ≠ q.1) := by
  unfold keironohi
  refine List.pairwise_append.mpr ⟨fixedGen_pairwise, mondayGen_pairwise, ?_⟩
  exact cross_ne_of_bounds (fixedGen_below_cut 54 (by decide) (by decide))
    (fun q hq => (mem_mondayGen.mp hq).2.2.2.1)

theorem midorinohi_keys_distinct (minD maxD : Nat) :
    (midorinohi minD maxD).Pairwise (fun p q => p.1 ≠ q.1) := by
  unfold midorinohi
  refine List.pairwise_append.mpr ⟨fixedGen_pairwise, fixedGen_pairwise, ?_⟩
  exact cross_ne_of_bounds (fixedGen_below_cut 58 (by decide) (by decide))
    (fun q hq => (mem_fixedGen.mp hq).2.2.2.1)

theorem uminohi_keys_distinct (minD maxD : Nat) :
    (uminohi minD maxD).Pairwise (fun p q => p.1 ≠ q.1) := by
  unfold uminohi
  refine List.pairwise_append.mpr ⟨List.pairwise_append.mpr
    ⟨fixedGen_pairwise, mondayGenSkip_pairwise, ?_⟩, override_pairwise, ?_⟩
  · exact cross_ne_of_bounds (fixedGen_below_cut 54 (by decide) (by decide))
      (fun q hq => (mem_mondayGenSkip.mp hq).2.2.2.1)
  · intro p hp q hq
    rcases (mem_override.mp hq).1 with rfl
    show p.1 ≠ toordinal 2020 7 23
    rcases List.mem_append.mp hp with h | h
    · have hb := fixedGen_below_cut 54 (by decide) (by decide) p h
      have hlt : DATE_06 < toordinal 2020 7 23 := by decide
      omega
    · exact mondayGenSkip_avoids 72 (by decide) (by decide) p h

theorem yamanohi_keys_distinct (minD maxD : Nat) :
    (yamanohi minD maxD).Pairwise (fun p q => p.1 ≠ q.1) := by
  unfold yamanohi
  refine List.pairwise_append.mpr ⟨fixedGenSkip_pairwise, override_pairwise, ?_⟩
  intro p hp q hq
  rcases (mem_override.mp hq).1 with rfl
  show p.1 ≠ toordinal 2020 8 10
  exact fixedGenSkip_avoids 71 (by decide) (by decide) p hp

theorem taiku_supotsu_keys_distinct (minD maxD : Nat) :
    (taikunohi minD maxD ++ supotsunohi minD maxD).Pairwise (fun p q => p.1 ≠ q.1) := by
  refine List.pairwise_append.mpr ⟨?_, ?_, ?_⟩
  · unfold taikunohi
    refine List.pairwise_append.mpr ⟨fixedGen_pairwise, mondayGen_pairwise, ?_⟩
    exact cross_ne_of_bounds (fixedGen_below_cut 51 (by decide) (by decide))
      (fun q hq => (mem_mondayGen.mp hq).2.2.2.1)
  · unfold supotsunohi
    refine List.pairwise_append.mpr ⟨mondayGenSkip_pairwise, override_pairwise, ?_⟩
    intro p hp q hq
    rcases (mem_override.mp hq).1 with rfl
    show p.1 ≠ toordinal 2020 7 24
    exact mondayGenSkip_avoids 71 (by decide) (by decide) p hp
  · intro p hp q hq
    have hple : p.1 < DATE_09 := by
      rcases List.mem_append.mp hp with h | h
      · have hb : leOpt p.1 (some DATE_HM) := (mem_fixedGen.mp h).2.2.2.2.1
        have hb2 : p.1 ≤ DATE_HM := hb
        have hlt : DATE_HM < DATE_09 := by decide
        omega
      · have hb := mondayGen_below_cut 71 (show mondayStream 10 2 71 < DATE_09 by decide)
          (show DATE_09 < mondayStream 10 2 (71 + 1) by decide) p h
        omega
    rcases List.mem_append.mp hq with h | h
    · have : DATE_09 ≤ q.1 := (mem_mondayGenSkip.mp h).2.2.2.1
      omega
    · rcases (mem_override.mp h).1 with rfl
      show p.1 ≠ toordinal 2020 7 24
      have hlt : DATE_09 < toordinal 2020 7 24 := by decide
      omega

theorem tennotanjobi_keys_distinct (minD maxD : Nat) :
    (tennotanjobi minD maxD).Pairwise (fun p q => p.1 ≠ q.1) := by
  unfold tennotanjobi
  refine List.pairwise_append.mpr ⟨List.pairwise_append.mpr
    ⟨fixedGen_pairwise, fixedGen_pairwise, ?_⟩, fixedGen_pairwise, ?_⟩
  · exact cross_ne_of_bounds (fixedGen_below_cut 40 (by decide) (by decide))
      (fun q hq => (mem_fixedGen.mp hq).2.2.2.1)
  · intro p hp q hq
    have hq3 : DATE_TT ≤ q.1 := (mem_fixedGen.mp hq).2.2.2.1
    have hple : p.1 < DATE_TT := by
      rcases List.mem_append.mp hp with h | h
      · have hb : leOpt p.1 (some DATE_04) := (mem_fixedGen.mp h).2.2.2.2.1
        have hb2 : p.1 ≤ DATE_04 := hb
        have hlt : DATE_04 < DATE_TT := by decide
        omega
      · have hb := fixedGen_below_cut 70 (show dateStream 12 23 70 < DATE_TT by decide)
          (show DATE_TT < dateStream 12 23 (70 + 1) by decide) p h
        omega
    omega

/-- The number of entries of a generator list dated inside year `y`. -/
def countInYear (l : List (Nat × String)) (y : Nat) : Nat :=
  (l.filter (fun p =>
    decide (toordinal y 1 1 ≤ p.1) && decide (p.1 ≤ toordinal y 12 31))).length

/-- C8 (counter-evidence): over the range `[2018-01-01, 2020-12-31]`, which
spans the 2019-05-01 accession cutover, the Emperor's Birthday generator
yields 2018-12-23 and 2020-02-23 and nothing dated in 2019: the combined
series skips a year at the cutover, refuting ("exactly one date per year
across the cutover, with no skipped year"). -/
theorem claim_C8_no_skipped_year_counterexample :
    tennotanjobi (toordinal 2018 1 1) (toordinal 2020 12 31) =
      [(toordinal 2018 12 23, "天皇誕生日"), (toordinal 2020 2 23, "天皇誕生日")] ∧
    countInYear (tennotanjobi (toordinal 2018 1 1) (toordinal 2020 12 31)) 2018 = 1 ∧
    countInYear (tennotanjobi (toordinal 2018 1 1) (toordinal 2020 12 31)) 2019 = 0 ∧
    countInYear (tennotanjobi (toordinal 2018 1 1) (toordinal 2020 12 31)) 2020 = 1 := by
  exact ⟨by decide, by decide, by decide, by decide⟩

/-- C8 (amended): for every query range, each multi-era holiday's yielded
pairs have pairwise distinct dates (no occurrence is produced by two era
windows); and over whole-year ranges spanning each cutover the combined
series carries exactly one date per covered year — except that the Emperor's
Birthday yields no date in 2019, its 12-23 era ending at the 2019-05-01
cutover and its 02-23 era first firing in 2020 (2020 apart, where the one-off
override supplies the year's single date). -/
theorem claim_C8_era_windows (minD maxD : Nat) :
    ((seijinnohi minD maxD).Pairwise (fun p q => p.1 ≠ q.1) ∧
      (uminohi minD maxD).Pairwise (fun p q => p.1 ≠ q.1) ∧
      (keironohi minD maxD).Pairwise (fun p q => p.1 ≠ q.1) ∧
      (taikunohi minD maxD ++ supotsunohi minD maxD).Pairwise (fun p q => p.1 ≠ q.1) ∧
      (midorinohi minD maxD).Pairwise (fun p q => p.1 ≠ q.1) ∧
      (yamanohi minD maxD).Pairwise (fun p q => p.1 ≠ q.1) ∧
      (tennotanjobi minD maxD).Pairwise (fun p q => p.1 ≠ q.1)) ∧
    ((∀ i < 5, countInYear (seijinnohi (toordinal 1998 1 1) (toordinal 2002 12 31))
        (1998 + i) = 1) ∧
      (∀ i < 5, countInYear (uminohi (toordinal 2001 1 1) (toordinal 2005 12 31))
        (2001 + i) = 1) ∧
      (∀ i < 5, countInYear (keironohi (toordinal 2001 1 1) (toordinal 2005 12 31))
        (2001 + i) = 1) ∧
      (∀ i < 5, countInYear (taikunohi (toordinal 2018 1 1) (toordinal 2022 12 31)
          ++ supotsunohi (toordinal 2018 1 1) (toordinal 2022 12 31)) (2018 + i) = 1) ∧
      (∀ i < 5, countInYear (midorinohi (toordinal 2005 1 1) (toordinal 2009 12 31))
        (2005 + i) = 1) ∧
      (∀ i < 5, countInYear (tennotanjobi (toordinal 1987 1 1) (toordinal 1991 12 31))
        (1987 + i) = 1) ∧
      (∀ i < 5, countInYear (tennotanjobi (toordinal 2017 1 1) (toordinal 2021 12 31))
        (2017 + i) = if i = 2 then 0 else 1)) :=
  ⟨⟨seijinnohi_keys_distinct minD maxD, uminohi_keys_distinct minD maxD,
    keironohi_keys_distinct minD maxD, taiku_supotsu_keys_distinct minD maxD,
    midorinohi_keys_distinct minD maxD, yamanohi_keys_distinct minD maxD,
    tennotanjobi_keys_distinct minD maxD⟩,
    by decide, by decide, by decide, by decide, by decide, by decide, by decide⟩

/-- Witness for C8's amended statement, instantiating the per-year clauses. -/
theorem claim_C8_era_windows_witness :
    countInYear (seijinnohi (toordinal 1998 1 1) (toordinal 2002 12 31)) 2000 = 1 ∧
      countInYear (tennotanjobi (toordinal 2017 1 1) (toordinal 2021 12 31)) 2019 =
        if 2 = 2 then 0 else 1 :=
  ⟨(claim_C8_era_windows 0 0).2.1 2 (by decide),
    (claim_C8_era_windows 0 0).2.2.2.2.2.2.2 2 (by decide)⟩

end JHolidayDict

